import Mathlib

/-
Verification development for the shop-name normalization engine
(src/ShopFix/shop_name_matcher.py, class ShopNameMatcher).

Modelling conventions:
* Python strings are lists of characters (`PyStr`); `str.strip()`,
  `str.lower()`, `str.startswith`, slicing and `split(',')` are modelled by
  the corresponding list functions below.
* Python floats are modelled by exact rationals (`ℚ`); the weight literals
  1.1, 1.2, 1.15 become 11/10, 6/5, 23/20.
* The two metrics `textdistance.levenshtein.normalized_similarity` and
  `textdistance.jaro_winkler.normalized_similarity` are modelled by their
  pure algorithms (classic edit distance; the flag/transposition Jaro
  algorithm with the Winkler boost, prefix weight 0.1, boost threshold 0.7).
* Fallible code (duck-typed attribute errors on non-string values) is
  modelled with `Except Unit`.
-/

namespace ShopFix

abbrev PyStr := List Char

/-- Python `str.strip()`: remove leading and trailing whitespace. -/
def strip (s : PyStr) : PyStr :=
  ((s.dropWhile Char.isWhitespace).reverse.dropWhile Char.isWhitespace).reverse

/-- Python `str.lower()` (characters are folded individually; ASCII data). -/
def lower (s : PyStr) : PyStr := s.map Char.toLower

/-- The brand token with its separator, the literal `'shein '` used by all
`startswith('shein ')` tests and 6-character slices in the source. -/
def brandTok : PyStr := "shein ".toList

/-! ### Levenshtein metric

`textdistance.levenshtein` computes the classic edit distance (unit-cost
insertion, deletion, substitution).  The recursion is driven by an explicit
fuel argument so that it is structural and hence kernel-evaluable. -/

def levDistF : Nat → PyStr → PyStr → Nat
  | _, [], b => b.length
  | _, a, [] => a.length
  | 0, _, _ => 0
  | n + 1, a :: as, b :: bs =>
    if a = b then levDistF n as bs
    else 1 + min (levDistF n as (b :: bs)) (min (levDistF n (a :: as) bs) (levDistF n as bs))

/-- Edit distance between two strings. -/
def levDist (a b : PyStr) : Nat := levDistF (a.length + b.length) a b

/-- `textdistance.levenshtein.normalized_similarity`: `1 - dist/max(len)`,
and 1 when both strings are empty (`normalized_distance` returns 0 when the
maximum is 0). -/
def levN (a b : PyStr) : ℚ :=
  if a.length = 0 ∧ b.length = 0 then 1
  else 1 - (levDist a b : ℚ) / (max a.length b.length : ℚ)

/-! ### Jaro-Winkler metric

Model of `textdistance.jaro_winkler.normalized_similarity` (the similarity
itself; its maximum is 1).  The matching pass walks the first string, and
for each character searches the window `[i - sr, min (i + sr) (len2 - 1)]`
of the second string for the first unflagged equal character, flagging the
pair.  The transposition count compares the flagged characters of both
strings in order (this is what the k-pointer walk in the library computes). -/

/-- First index `j` in `[low, hi]` with `s2[j]` unflagged and equal to `ch`. -/
def matchScan (s2 : PyStr) (flags2 : List Bool) (ch : Char) (low hi : Nat) : Option Nat :=
  (List.range' low (hi + 1 - low)).find?
    (fun j => !(flags2.getD j true) && ((s2.get? j).any (· == ch)))

/-- Flag-building pass: returns the flags of `s1`, the final flags of `s2`,
and the running `common_chars` counter. -/
def jaroFlags (s2 : PyStr) (sr : Nat) :
    PyStr → Nat → List Bool → Nat → List Bool × List Bool × Nat
  | [], _, f2, c => ([], f2, c)
  | ch :: rest, i, f2, c =>
    match matchScan s2 f2 ch (i - sr) (min (i + sr) (s2.length - 1)) with
    | some j =>
      let r := jaroFlags s2 sr rest (i + 1) (f2.set j true) (c + 1)
      (true :: r.1, r.2)
    | none =>
      let r := jaroFlags s2 sr rest (i + 1) f2 c
      (false :: r.1, r.2)

/-- The characters of `s` at flagged positions, in order. -/
def flaggedChars (s : PyStr) (flags : List Bool) : PyStr :=
  (s.zip flags).filterMap (fun p => if p.2 then some p.1 else none)

/-- Raw transposition count: mismatches between the flagged characters of
the two strings, paired in order. -/
def transCnt (s1 : PyStr) (f1 : List Bool) (s2 : PyStr) (f2 : List Bool) : Nat :=
  ((flaggedChars s1 f1).zip (flaggedChars s2 f2)).countP (fun p => p.1 != p.2)

/-- Length of the common prefix of the two strings, capped at `cap`. -/
def commonPfxLen : PyStr → PyStr → Nat → Nat
  | a :: as, b :: bs, n + 1 => if a = b then 1 + commonPfxLen as bs n else 0
  | _, _, _ => 0

/-- `textdistance.jaro_winkler.normalized_similarity`. -/
def jaroW (a b : PyStr) : ℚ :=
  if a.length = 0 ∨ b.length = 0 then 0
  else
    let sr := max a.length b.length / 2 - 1
    let r := jaroFlags b sr a 0 (List.replicate b.length false) 0
    let c := r.2.2
    if c = 0 then 0
    else
      let t := transCnt a r.1 b r.2.1 / 2
      let w := ((c : ℚ) / (a.length : ℚ) + (c : ℚ) / (b.length : ℚ)
                 + ((c : ℚ) - (t : ℚ)) / (c : ℚ)) / 3
      if 7 / 10 < w then
        let p := commonPfxLen a b (min (min a.length b.length) 4)
        w + (p : ℚ) * (1 / 10) * (1 - w)
      else w

/-- The flag/count result of the matching pass of `jaroW a b`. -/
def jcR (a b : PyStr) : List Bool × List Bool × Nat :=
  jaroFlags b (max a.length b.length / 2 - 1) a 0 (List.replicate b.length false) 0

/-- `common_chars` of `jaroW a b`. -/
def jcC (a b : PyStr) : Nat := (jcR a b).2.2

/-- `trans_count` (after halving) of `jaroW a b`. -/
def jcT (a b : PyStr) : Nat := transCnt a (jcR a b).1 b (jcR a b).2.1 / 2

/-- The pre-Winkler Jaro weight of `jaroW a b`. -/
def jcW (a b : PyStr) : ℚ :=
  ((jcC a b : ℚ) / (a.length : ℚ) + (jcC a b : ℚ) / (b.length : ℚ)
    + ((jcC a b : ℚ) - (jcT a b : ℚ)) / (jcC a b : ℚ)) / 3

/-! ### Per-entry effective scores (find_best_match, lines 127-205)

For one registry entry, the loop body computes `current_lev_similarity` and
`current_jw_similarity`: starting from 0, at most one brand-prefix variant
(the cases are an if/elif/elif chain) raises the value, then the baseline
full-string comparison (the larger of case-sensitive and case-insensitive)
raises it again.  `tocr` is the already-stripped OCR name. -/

def curLev (tocr std : PyStr) : ℚ :=
  let ol := lower tocr
  let sl := lower std
  let c : ℚ :=
    if brandTok.isPrefixOf ol ∧ brandTok.isPrefixOf sl then
      max 0 (min 1 (levN (strip (ol.drop 6)) (strip (sl.drop 6)) * (11 / 10)))
    else if brandTok.isPrefixOf ol ∧ ¬brandTok.isPrefixOf sl then
      max 0 (min 1 (levN (strip (ol.drop 6)) sl * (6 / 5)))
    else if ¬brandTok.isPrefixOf ol ∧ brandTok.isPrefixOf sl then
      max 0 (min 1 (levN ol (strip (sl.drop 6)) * (23 / 20)))
    else 0
  max c (max (levN tocr std) (levN ol sl))

def curJw (tocr std : PyStr) : ℚ :=
  let ol := lower tocr
  let sl := lower std
  let c : ℚ :=
    if brandTok.isPrefixOf ol ∧ brandTok.isPrefixOf sl then
      max 0 (min 1 (jaroW (strip (ol.drop 6)) (strip (sl.drop 6)) * (11 / 10)))
    else if brandTok.isPrefixOf ol ∧ ¬brandTok.isPrefixOf sl then
      max 0 (min 1 (jaroW (strip (ol.drop 6)) sl * (6 / 5)))
    else if ¬brandTok.isPrefixOf ol ∧ brandTok.isPrefixOf sl then
      max 0 (min 1 (jaroW ol (strip (sl.drop 6)) * (23 / 20)))
    else 0
  max c (max (jaroW tocr std) (jaroW ol sl))

/-- Algorithm label chosen when the Levenshtein score of this entry becomes
the best (find_best_match, lines 212-219). -/
def levLabel (tocr std : PyStr) : PyStr :=
  let ol := lower tocr
  let sl := lower std
  if brandTok.isPrefixOf ol ∧ brandTok.isPrefixOf sl then "Levenshtein (SHEIN-suffix)".toList
  else if brandTok.isPrefixOf ol ∧ ¬brandTok.isPrefixOf sl then "Levenshtein (SHEIN-removed)".toList
  else if ¬brandTok.isPrefixOf ol ∧ brandTok.isPrefixOf sl then "Levenshtein (SHEIN-added)".toList
  else if levN ol sl ≤ levN tocr std then "Levenshtein".toList
  else "Levenshtein (case-insensitive)".toList

/-- Algorithm label for a Jaro-Winkler update (lines 225-232). -/
def jwLabel (tocr std : PyStr) : PyStr :=
  let ol := lower tocr
  let sl := lower std
  if brandTok.isPrefixOf ol ∧ brandTok.isPrefixOf sl then "Jaro-Winkler (SHEIN-suffix)".toList
  else if brandTok.isPrefixOf ol ∧ ¬brandTok.isPrefixOf sl then "Jaro-Winkler (SHEIN-removed)".toList
  else if ¬brandTok.isPrefixOf ol ∧ brandTok.isPrefixOf sl then "Jaro-Winkler (SHEIN-added)".toList
  else if jaroW ol sl ≤ jaroW tocr std then "Jaro-Winkler".toList
  else "Jaro-Winkler (case-insensitive)".toList

/-! ### The registry scan (find_best_match, lines 127-237) -/

/-- One iteration of the scan: state is `(best_match, best_similarity,
best_algorithm)`; the Levenshtein update is checked first, then the
Jaro-Winkler update against the possibly-updated best (lines 207-232). -/
def scanStep (tL tJ : ℚ) (tocr : PyStr) (st : Option PyStr × ℚ × PyStr) (std : PyStr) :
    Option PyStr × ℚ × PyStr :=
  let cl := curLev tocr std
  let st1 := if tL ≤ cl ∧ st.2.1 < cl then (some std, cl, levLabel tocr std) else st
  let cj := curJw tocr std
  if tJ ≤ cj ∧ st1.2.1 < cj then (some std, cj, jwLabel tocr std) else st1

/-- The generic similarity scan over the whole registry; `none` when
`best_match` stays `None` (lines 127-237). -/
def genericScan (R : List PyStr) (tL tJ : ℚ) (tocr : PyStr) : Option (PyStr × ℚ × PyStr) :=
  match R.foldl (scanStep tL tJ tocr) (none, 0, []) with
  | (some m, bs, ba) => some (m, bs, ba)
  | (none, _, _) => none

/-! ### find_best_match (lines 64-237)

The early rules (lines 74-125) neither read the thresholds nor the metric
values, so they are factored into `earlyRules`; `some d` means an early
`return d`, `none` means fall through to the generic scan. -/

def earlyRules (R : List PyStr) (ocr : PyStr) : Option (Option (PyStr × ℚ × PyStr)) :=
  if strip ocr = [] then some none
  else
    let t := strip ocr
    if t ∈ R then some none
    else if lower t = "shein".toList then some none
    else
      let tl := lower t
      match R.find? (fun std => lower std == tl) with
      | some m => some (some (m, 1, "Case-insensitive exact match".toList))
      | none =>
      match (if tl = "shein glowmode".toList
             then R.find? (fun std => lower std == "glowmode".toList) else none) with
      | some m => some (some (m, 1, "Special case: SHEIN GLOWMODE -> glowmode".toList))
      | none =>
      match (if tl = "leisure".toList
             then R.find? (fun std => lower std == "shein leisure".toList) else none) with
      | some m => some (some (m, 1, "Special case: Leisure -> SHEIN Leisure".toList))
      | none =>
      match (if brandTok.isPrefixOf tl
             then R.find? (fun std => lower std == lower (strip (t.drop 6))) else none) with
      | some m => some (some (m, 1, "SHEIN-prefix removed exact match".toList))
      | none =>
      match R.find? (fun std =>
          brandTok.isPrefixOf (lower std) && (strip ((lower std).drop 6) == tl)) with
      | some m => some (some (m, 1, "SHEIN-prefix added exact match".toList))
      | none => none

/-- `ShopNameMatcher.find_best_match` for a matcher with registry `R` and
thresholds `tL` (Levenshtein) and `tJ` (Jaro-Winkler). -/
def find_best_match (R : List PyStr) (tL tJ : ℚ) (ocr : PyStr) : Option (PyStr × ℚ × PyStr) :=
  match earlyRules R ocr with
  | some d => d
  | none => genericScan R tL tJ (strip ocr)

/-! ### Token-list processing (process_comma_separated_shop_names, lines 239-277) -/

/-- Python `str.split(',')`. -/
def splitComma : PyStr → List PyStr
  | [] => [[]]
  | c :: rest =>
    if c = ',' then [] :: splitComma rest
    else
      match splitComma rest with
      | t :: ts => (c :: t) :: ts
      | [] => [[c]]

/-- Python `', '.join(...)`. -/
def joinComma : List PyStr → PyStr
  | [] => []
  | [a] => a
  | a :: rest => a ++ ',' :: ' ' :: joinComma rest

/-- One replacement record as built by the token loop (lines 265-270),
before the document walker adds `path` and `field`. -/
structure RepRec where
  original : PyStr
  replaced : PyStr
  similarity : ℚ
  algorithm : PyStr

/-- The token loop (lines 257-273): empty tokens are dropped, matched tokens
are replaced and recorded, unmatched tokens pass through. -/
def procNames (R : List PyStr) (tL tJ : ℚ) : List PyStr → List PyStr × List RepRec
  | [] => ([], [])
  | nm :: rest =>
    let r := procNames R tL tJ rest
    if nm = [] then r
    else
      match find_best_match R tL tJ nm with
      | some (std, sim, alg) => (std :: r.1, ⟨nm, std, sim, alg⟩ :: r.2)
      | none => (nm :: r.1, r.2)

/-- `ShopNameMatcher.process_comma_separated_shop_names` on an actual
string argument. -/
def process_comma_separated_shop_names (R : List PyStr) (tL tJ : ℚ) (s : PyStr) :
    PyStr × List RepRec :=
  if s = [] ∨ strip s = [] then (s, [])
  else
    let r := procNames R tL tJ ((splitComma s).map strip)
    (joinComma r.1, r.2)

/-! ### JSON documents (process_json_data, lines 279-332) -/

/-- JSON values as produced by `json.load`. -/
inductive Json where
  | null
  | bool (b : Bool)
  | num (q : ℚ)
  | str (s : PyStr)
  | arr (xs : List Json)
  | obj (kvs : List (PyStr × Json))

/-- Python truthiness of a JSON value (`if not shop_names_str`). -/
def truthy : Json → Bool
  | .null => false
  | .bool b => b
  | .num q => !(q == 0)
  | .str s => !s.isEmpty
  | .arr xs => !xs.isEmpty
  | .obj kvs => !kvs.isEmpty

/-- Duck-typed behavior of `process_comma_separated_shop_names` when handed
the raw `valueString` value: a falsy value is returned unchanged by the
first guard, a truthy string is processed, and any truthy non-string raises
(`.strip()` attribute error). -/
def pyProcessValue (R : List PyStr) (tL tJ : ℚ) (v : Json) : Except Unit (Json × List RepRec) :=
  match v with
  | .str s =>
    let r := process_comma_separated_shop_names R tL tJ s
    .ok (.str r.1, r.2)
  | v => if truthy v then .error () else .ok (v, [])

/-- Lookup of a key in a JSON object (Python dicts hold unique keys; the
first binding is authoritative). -/
def objGet (kvs : List (PyStr × Json)) (k : PyStr) : Option Json :=
  (kvs.find? (fun p => p.1 == k)).map (·.2)

/-- Replace the first binding of key `k` (used only for keys that are
present; models in-place dict assignment). -/
def objSet (kvs : List (PyStr × Json)) (k : PyStr) (v : Json) : List (PyStr × Json) :=
  match kvs with
  | [] => []
  | (k', v') :: rest => if k' == k then (k', v) :: rest else (k', v') :: objSet rest k v

def vsKey : PyStr := "valueString".toList

/-- Python substring test `p in s` for strings. -/
def isSubstr (p s : PyStr) : Bool := s.tails.any (fun t => p.isPrefixOf t)

/-- Handling of one target field inside a `fields` value (lines 307-317 or
320-330, without the path tagging).  The membership test `fname in fields`
is duck-typed: on a dict it is a key test; on a list or string a successful
test is followed by a string subscript, which raises; on anything else the
`in` itself raises. -/
def processOneField (R : List PyStr) (tL tJ : ℚ) (fname : PyStr) (fv : Json) :
    Except Unit (Json × List RepRec) :=
  match fv with
  | .obj fkvs =>
    match objGet fkvs fname with
    | some (.obj inner) =>
      match objGet inner vsKey with
      | some v => do
        let (v1, recs) ← pyProcessValue R tL tJ v
        Except.ok (.obj (objSet fkvs fname (.obj (objSet inner vsKey v1))), recs)
      | none => .ok (fv, [])
    | some _ => .ok (fv, [])
    | none => .ok (fv, [])
  | .arr xs =>
    if xs.any (fun x => match x with | .str s => s == fname | _ => false)
    then .error () else .ok (fv, [])
  | .str s => if isSubstr fname s then .error () else .ok (fv, [])
  | _ => .error ()

/-- A replacement record after the walker adds `path` and `field`. -/
structure TagRec where
  original : PyStr
  replaced : PyStr
  similarity : ℚ
  algorithm : PyStr
  path : PyStr
  field : PyStr

def natStr (n : Nat) : PyStr := (Nat.repr n).toList

def shopnameKey : PyStr := "shopname".toList

def barKey : PyStr := "shopname_in_search_bar".toList

/-- Path string attached to records of field `fname` at item `idx`, content
`cIdx` (lines 315, 328). -/
def fieldPath (idx cIdx : Nat) (fname : PyStr) : PyStr :=
  '[' :: natStr idx ++ "].result.contents[".toList ++ natStr cIdx
    ++ "].fields.".toList ++ fname ++ ".valueString".toList

def tagWith (idx cIdx : Nat) (fname : PyStr) (r : RepRec) : TagRec :=
  ⟨r.original, r.replaced, r.similarity, r.algorithm, fieldPath idx cIdx fname, fname⟩

/-- Handling of one entry of `result.contents` (lines 302-330): the
`shopname` block runs first, then `shopname_in_search_bar` on the updated
`fields`. -/
def processContent (R : List PyStr) (tL tJ : ℚ) (idx cIdx : Nat) (content : Json) :
    Except Unit (Json × List TagRec) :=
  match content with
  | .obj ckvs =>
    match objGet ckvs "fields".toList with
    | some fv => do
      let (fv1, r1) ← processOneField R tL tJ shopnameKey fv
      let (fv2, r2) ← processOneField R tL tJ barKey fv1
      Except.ok (.obj (objSet ckvs "fields".toList fv2),
        r1.map (tagWith idx cIdx shopnameKey) ++ r2.map (tagWith idx cIdx barKey))
    | none => .ok (content, [])
  | _ => .ok (content, [])

def processContents (R : List PyStr) (tL tJ : ℚ) (idx : Nat) :
    Nat → List Json → Except Unit (List Json × List TagRec)
  | _, [] => .ok ([], [])
  | cIdx, c :: rest => do
    let (c1, r1) ← processContent R tL tJ idx cIdx c
    let (cs1, r2) ← processContents R tL tJ idx (cIdx + 1) rest
    Except.ok (c1 :: cs1, r1 ++ r2)

/-- Handling of one item of the top-level array (lines 296-330). -/
def processItem (R : List PyStr) (tL tJ : ℚ) (idx : Nat) (item : Json) :
    Except Unit (Json × List TagRec) :=
  match item with
  | .obj kvs =>
    match objGet kvs "result".toList with
    | some (.obj rkvs) =>
      match objGet rkvs "contents".toList with
      | some (.arr cs) => do
        let (cs1, recs) ← processContents R tL tJ idx 0 cs
        Except.ok (.obj (objSet kvs "result".toList
          (.obj (objSet rkvs "contents".toList (.arr cs1)))), recs)
      | _ => .ok (item, [])
    | _ => .ok (item, [])
  | _ => .ok (item, [])

def processItems (R : List PyStr) (tL tJ : ℚ) :
    Nat → List Json → Except Unit (List Json × List TagRec)
  | _, [] => .ok ([], [])
  | idx, it :: rest => do
    let (it1, r1) ← processItem R tL tJ idx it
    let (rest1, r2) ← processItems R tL tJ (idx + 1) rest
    Except.ok (it1 :: rest1, r1 ++ r2)

/-- `ShopNameMatcher.process_json_data`: deep-copies the input (pure in this
model), walks the fixed shape when the top level is an array, and returns
the rewritten copy with the path-tagged replacement records. -/
def process_json_data (R : List PyStr) (tL tJ : ℚ) (doc : Json) :
    Except Unit (Json × List TagRec) :=
  match doc with
  | .arr items => do
    let (items1, recs) ← processItems R tL tJ 0 items
    Except.ok (.arr items1, recs)
  | _ => .ok (doc, [])

/-! ### Registry construction (_load_standard_names, lines 40-62)

CSV reading is external; its observable output is the list of parsed rows
(each row a list of cell strings).  The loop keeps, in order, the trimmed
first cell of every row that is non-empty and whose first cell is non-blank
(`if row and row[0].strip()`). -/

def _load_standard_names : List (List PyStr) → List PyStr
  | [] => []
  | row :: rest =>
    match row with
    | [] => _load_standard_names rest
    | c :: _ =>
      if strip c = [] then _load_standard_names rest
      else strip c :: _load_standard_names rest

/-! ### Spec-side definitions

The following definitions restate parts of the specification in its own
words, to be compared with the source-translated functions above. -/

/-- Spec 4.1 step 3/4: the applicable weighted comparison variants for one
metric `f` on the pair (input, entry), each capped at 1.0, the baseline
always included. -/
def variants (f : PyStr → PyStr → ℚ) (tocr std : PyStr) : List ℚ :=
  (if brandTok.isPrefixOf (lower tocr) ∧ brandTok.isPrefixOf (lower std) then
    [min 1 (f (strip ((lower tocr).drop 6)) (strip ((lower std).drop 6)) * (11 / 10))]
  else if brandTok.isPrefixOf (lower tocr) ∧ ¬brandTok.isPrefixOf (lower std) then
    [min 1 (f (strip ((lower tocr).drop 6)) (lower std) * (6 / 5))]
  else if ¬brandTok.isPrefixOf (lower tocr) ∧ brandTok.isPrefixOf (lower std) then
    [min 1 (f (lower tocr) (strip ((lower std).drop 6)) * (23 / 20))]
  else [])
  ++ [max (f tocr std) (f (lower tocr) (lower std))]

/-- Maximum of a list of scores (0 for the empty list). -/
def listMax (l : List ℚ) : ℚ := l.foldr max 0

/-- Spec 4.2 step 7: the qualifying candidates of the generic scan, in scan
order — registry order, and for one entry the Levenshtein candidate before
the Jaro-Winkler one; a candidate appears only if its score meets its
metric's threshold. -/
def candList (R : List PyStr) (tL tJ : ℚ) (tocr : PyStr) : List (PyStr × ℚ × PyStr) :=
  R.flatMap (fun std =>
    (if tL ≤ curLev tocr std then [(std, curLev tocr std, levLabel tocr std)] else [])
    ++ (if tJ ≤ curJw tocr std then [(std, curJw tocr std, jwLabel tocr std)] else []))

/-- Maximum candidate score. -/
def maxSc (cs : List (PyStr × ℚ × PyStr)) : ℚ := listMax (cs.map (fun c => c.2.1))

/-- One update of the running best against a single qualifying candidate:
replace the best exactly when the candidate's score is strictly larger. -/
def candStep (st : Option PyStr × ℚ × PyStr) (cand : PyStr × ℚ × PyStr) :
    Option PyStr × ℚ × PyStr :=
  if st.2.1 < cand.2.1 then (some cand.1, cand.2.1, cand.2.2) else st

/-- Spec 4.3: the tokens of a comma-separated value — split on comma, trim,
drop empties. -/
def specTokens (s : PyStr) : List PyStr :=
  ((splitComma s).map strip).filter (fun t => t ≠ [])

/-- Spec 4.3: each token is decided independently, unmatched tokens pass
through. -/
def specOuts (R : List PyStr) (tL tJ : ℚ) (s : PyStr) : List PyStr :=
  (specTokens s).map (fun t =>
    match find_best_match R tL tJ t with
    | some (m, _, _) => m
    | none => t)

/-- Spec 4.3: one replacement record per matched token, in token order. -/
def specRecs (R : List PyStr) (tL tJ : ℚ) (s : PyStr) : List RepRec :=
  (specTokens s).filterMap (fun t =>
    (find_best_match R tL tJ t).map (fun r => ⟨t, r.1, r.2.1, r.2.2⟩))

/-! ### Frame functions for the document walk

`eraseOneField`/`eraseDoc` blank (to `null`) exactly the positions the
walker may rewrite: the `valueString` entry of each recognized target
field.  Two documents have the same erasure iff they agree outside those
positions. -/

def eraseOneField (fname : PyStr) (fv : Json) : Json :=
  match fv with
  | .obj fkvs =>
    match objGet fkvs fname with
    | some (.obj inner) =>
      match objGet inner vsKey with
      | some _ => .obj (objSet fkvs fname (.obj (objSet inner vsKey .null)))
      | none => fv
    | some _ => fv
    | none => fv
  | _ => fv

def eraseContent (content : Json) : Json :=
  match content with
  | .obj ckvs =>
    match objGet ckvs "fields".toList with
    | some fv =>
      .obj (objSet ckvs "fields".toList (eraseOneField barKey (eraseOneField shopnameKey fv)))
    | none => content
  | _ => content

def eraseItem (item : Json) : Json :=
  match item with
  | .obj kvs =>
    match objGet kvs "result".toList with
    | some (.obj rkvs) =>
      match objGet rkvs "contents".toList with
      | some (.arr cs) =>
        .obj (objSet kvs "result".toList
          (.obj (objSet rkvs "contents".toList (.arr (cs.map eraseContent)))))
      | _ => item
    | _ => item
  | _ => item

def eraseDoc : Json → Json
  | .arr items => .arr (items.map eraseItem)
  | doc => doc

/-! ### Concrete fixtures

Small concrete registries and documents used to instantiate the theorems
below at computable inputs. -/

/-- A document of the walked shape with a single
`result.contents[0].fields.shopname.valueString` slot holding `v`. -/
def mkShopDoc (v : Json) : Json :=
  Json.arr [Json.obj [("result".toList, Json.obj [("contents".toList, Json.arr
    [Json.obj [("fields".toList, Json.obj [("shopname".toList,
      Json.obj [("valueString".toList, v)])])]])])]]

def regGlow : List PyStr := ["glowmode".toList]

def docGlow : Json := mkShopDoc (Json.str "SHEIN GLOWMODE".toList)

def docGlow1 : Json := mkShopDoc (Json.str "glowmode".toList)

def recGlow : TagRec :=
  ⟨"SHEIN GLOWMODE".toList, "glowmode".toList, 1,
    "Special case: SHEIN GLOWMODE -> glowmode".toList,
    "[0].result.contents[0].fields.shopname.valueString".toList, "shopname".toList⟩

def regComma : List PyStr := ["aaaa,bbbb".toList]

def docComma : Json := mkShopDoc (Json.str "aaaabbbb".toList)

def docComma1 : Json := mkShopDoc (Json.str "aaaa,bbbb".toList)

def docComma2 : Json := mkShopDoc (Json.str "aaaa,bbbb, bbbb".toList)

def recComma1 : TagRec :=
  ⟨"aaaabbbb".toList, "aaaa,bbbb".toList, 44 / 45, "Jaro-Winkler".toList,
    "[0].result.contents[0].fields.shopname.valueString".toList, "shopname".toList⟩

def recComma2 : TagRec :=
  ⟨"aaaa".toList, "aaaa,bbbb".toList, 8 / 9, "Jaro-Winkler".toList,
    "[0].result.contents[0].fields.shopname.valueString".toList, "shopname".toList⟩

/-! ## Lemmas about trimming and case folding -/

lemma dropWhile_head_false {p : Char → Bool} {l : PyStr} {c : Char}
    (h : (l.dropWhile p).head? = some c) : p c = false := by
  induction l with
  | nil => simp at h
  | cons a l ih =>
    rw [List.dropWhile_cons] at h
    by_cases hp : p a = true
    · rw [if_pos hp] at h
      exact ih h
    · rw [if_neg hp] at h
      have ha : a = c := by simpa using h
      subst ha
      simpa using hp

lemma dropWhile_eq_self_of_head {p : Char → Bool} {l : PyStr}
    (h : ∀ c, l.head? = some c → p c = false) : l.dropWhile p = l := by
  cases l with
  | nil => rfl
  | cons a l => rw [List.dropWhile_cons]; simp [h a rfl]

lemma strip_head_false {s : PyStr} {c : Char} (h : (strip s).head? = some c) :
    c.isWhitespace = false := by
  unfold strip at h
  rw [List.head?_reverse] at h
  rcases List.dropWhile_suffix (l := (s.dropWhile Char.isWhitespace).reverse)
      Char.isWhitespace with ⟨t, ht⟩
  have hlast : ((s.dropWhile Char.isWhitespace).reverse).getLast? = some c := by
    rw [← ht, List.getLast?_append, h]
    rfl
  rw [List.getLast?_reverse] at hlast
  exact dropWhile_head_false hlast

lemma strip_getLast_false {s : PyStr} {c : Char} (h : (strip s).getLast? = some c) :
    c.isWhitespace = false := by
  unfold strip at h
  rw [List.getLast?_reverse] at h
  exact dropWhile_head_false h

lemma strip_eq_self_of_edges {s : PyStr}
    (h1 : ∀ c, s.head? = some c → c.isWhitespace = false)
    (h2 : ∀ c, s.getLast? = some c → c.isWhitespace = false) : strip s = s := by
  unfold strip
  rw [dropWhile_eq_self_of_head h1]
  rw [dropWhile_eq_self_of_head (by simpa [List.head?_reverse] using h2)]
  exact s.reverse_reverse

lemma strip_strip (s : PyStr) : strip (strip s) = strip s :=
  strip_eq_self_of_edges (fun _ h => strip_head_false h) (fun _ h => strip_getLast_false h)

lemma strip_cons_space (s : PyStr) : strip (' ' :: s) = strip s := by
  unfold strip
  rw [List.dropWhile_cons]
  simp

lemma strip_head_false_of_eq {s : PyStr} (hs : strip s = s) {c : Char}
    (h : s.head? = some c) : c.isWhitespace = false :=
  strip_head_false (by rw [hs]; exact h)

lemma strip_getLast_false_of_eq {s : PyStr} (hs : strip s = s) {c : Char}
    (h : s.getLast? = some c) : c.isWhitespace = false :=
  strip_getLast_false (by rw [hs]; exact h)

lemma strip_ne_nil {s : PyStr} {c : Char} (hc : c ∈ s) (hw : c.isWhitespace = false) :
    strip s ≠ [] := by
  intro h0
  unfold strip at h0
  rw [List.reverse_eq_nil_iff, List.dropWhile_eq_nil_iff] at h0
  have hall : ∀ x ∈ s.dropWhile Char.isWhitespace, x.isWhitespace = true := by
    intro x hx
    exact h0 x (List.mem_reverse.mpr hx)
  have hc2 : c ∈ s.takeWhile Char.isWhitespace ++ s.dropWhile Char.isWhitespace := by
    rw [List.takeWhile_append_dropWhile]
    exact hc
  rcases List.mem_append.mp hc2 with h1 | h1
  · exact absurd (List.mem_takeWhile_imp h1) (by simp [hw])
  · exact absurd (hall c h1) (by simp [hw])

lemma toLower_ws_eq_self {c : Char} (h : c.isWhitespace = true) : c.toLower = c := by
  simp [Char.isWhitespace] at h
  rcases h with ((h | h) | h) | h <;> (subst h; decide)

lemma not_ws_of_toLower {c w : Char} (hw : w.isWhitespace = false)
    (h : c.toLower = w) : c.isWhitespace = false := by
  by_contra hc
  rw [Bool.not_eq_false] at hc
  rw [toLower_ws_eq_self hc] at h
  subst h
  simp [hc] at hw

/-! ## Bounds for the Levenshtein metric -/

lemma levDistF_le : ∀ (n : Nat) (a b : PyStr), a.length + b.length ≤ n →
    levDistF n a b ≤ max a.length b.length := by
  intro n
  induction n with
  | zero =>
    intro a b h
    cases a with
    | nil => simp [levDistF]
    | cons x xs => cases b with
      | nil => simp [levDistF]
      | cons y ys => simp at h
  | succ n ih =>
    intro a b h
    cases a with
    | nil => simp [levDistF]
    | cons x xs => cases b with
      | nil => simp [levDistF]
      | cons y ys =>
        show levDistF (n+1) (x :: xs) (y :: ys) ≤ _
        rw [levDistF]
        simp only [List.length_cons] at h ⊢
        by_cases hxy : x = y
        · simp only [if_pos hxy]
          calc levDistF n xs ys ≤ max xs.length ys.length := ih xs ys (by omega)
            _ ≤ max (xs.length + 1) (ys.length + 1) := by omega
        · simp only [if_neg hxy]
          have h3 : levDistF n xs ys ≤ max xs.length ys.length := ih xs ys (by omega)
          have : min (levDistF n xs (y :: ys)) (min (levDistF n (x :: xs) ys) (levDistF n xs ys))
              ≤ levDistF n xs ys := le_trans (min_le_right _ _) (min_le_right _ _)
          omega

lemma levDist_le (a b : PyStr) : levDist a b ≤ max a.length b.length :=
  levDistF_le _ a b le_rfl

lemma max_len_pos {a b : PyStr} (h : ¬(a.length = 0 ∧ b.length = 0)) :
    (0 : ℚ) < (max a.length b.length : ℚ) := by
  have hM0 : 0 < max a.length b.length := by
    rcases Nat.eq_zero_or_pos a.length with ha | ha
    · rcases Nat.eq_zero_or_pos b.length with hb | hb
      · exact absurd ⟨ha, hb⟩ h
      · omega
    · omega
  exact_mod_cast hM0

lemma levN_nonneg (a b : PyStr) : 0 ≤ levN a b := by
  unfold levN
  split
  · norm_num
  · rename_i h
    have hM := max_len_pos h
    have hd : (levDist a b : ℚ) / (max a.length b.length : ℚ) ≤ 1 := by
      rw [div_le_one hM]
      exact_mod_cast levDist_le a b
    linarith

lemma levN_le_one (a b : PyStr) : levN a b ≤ 1 := by
  unfold levN
  split
  · norm_num
  · rename_i h
    have hM := max_len_pos h
    have hd : 0 ≤ (levDist a b : ℚ) / (max a.length b.length : ℚ) :=
      div_nonneg (by positivity) (le_of_lt hM)
    linarith

/-! ## Bounds for the Jaro-Winkler metric -/

lemma matchScan_flag {s2 : PyStr} {f2 : List Bool} {ch : Char} {low hi j : Nat}
    (h : matchScan s2 f2 ch low hi = some j) : f2.getD j true = false := by
  have hp := List.find?_some h
  simp only [Bool.and_eq_true, Bool.not_eq_true'] at hp
  exact hp.1

lemma countP_set_true {f2 : List Bool} {j : Nat} (h : f2.getD j true = false) :
    (f2.set j true).countP id = f2.countP id + 1 := by
  have hj : j < f2.length := by
    by_contra hj
    push_neg at hj
    rw [List.getD_eq_default _ _ hj] at h
    simp at h
  have hv : f2[j] = false := by
    rwa [List.getD_eq_getElem _ _ hj] at h
  rw [List.countP_set _ _ _ _ hj, hv]
  simp

lemma jaroFlags_fst_length (s2 : PyStr) (sr : Nat) :
    ∀ (s1 : PyStr) (i : Nat) (f2 : List Bool) (c : Nat),
      (jaroFlags s2 sr s1 i f2 c).1.length = s1.length := by
  intro s1
  induction s1 with
  | nil => intro i f2 c; rfl
  | cons ch rest ih =>
    intro i f2 c
    rw [jaroFlags]
    cases matchScan s2 f2 ch (i - sr) (min (i + sr) (s2.length - 1)) with
    | some j => simp [ih]
    | none => simp [ih]

lemma jaroFlags_f2_length (s2 : PyStr) (sr : Nat) :
    ∀ (s1 : PyStr) (i : Nat) (f2 : List Bool) (c : Nat),
      (jaroFlags s2 sr s1 i f2 c).2.1.length = f2.length := by
  intro s1
  induction s1 with
  | nil => intro i f2 c; rfl
  | cons ch rest ih =>
    intro i f2 c
    rw [jaroFlags]
    cases matchScan s2 f2 ch (i - sr) (min (i + sr) (s2.length - 1)) with
    | some j => simpa [List.length_set] using ih (i + 1) (f2.set j true) (c + 1)
    | none => simpa using ih (i + 1) f2 c

lemma jaroFlags_cnt (s2 : PyStr) (sr : Nat) :
    ∀ (s1 : PyStr) (i : Nat) (f2 : List Bool) (c : Nat),
      (jaroFlags s2 sr s1 i f2 c).2.2 = c + (jaroFlags s2 sr s1 i f2 c).1.countP id := by
  intro s1
  induction s1 with
  | nil => intro i f2 c; simp [jaroFlags]
  | cons ch rest ih =>
    intro i f2 c
    rw [jaroFlags]
    cases matchScan s2 f2 ch (i - sr) (min (i + sr) (s2.length - 1)) with
    | some j =>
      simp only [List.countP_cons, id]
      rw [ih (i + 1) (f2.set j true) (c + 1)]
      simp [Nat.add_comm, Nat.add_assoc, Nat.add_left_comm]
    | none =>
      simp only [List.countP_cons, id]
      rw [ih (i + 1) f2 c]
      simp

lemma jaroFlags_f2_cnt (s2 : PyStr) (sr : Nat) :
    ∀ (s1 : PyStr) (i : Nat) (f2 : List Bool) (c : Nat),
      (jaroFlags s2 sr s1 i f2 c).2.1.countP id
        = f2.countP id + (jaroFlags s2 sr s1 i f2 c).1.countP id := by
  intro s1
  induction s1 with
  | nil => intro i f2 c; simp [jaroFlags]
  | cons ch rest ih =>
    intro i f2 c
    rw [jaroFlags]
    cases h : matchScan s2 f2 ch (i - sr) (min (i + sr) (s2.length - 1)) with
    | some j =>
      simp only [List.countP_cons, id]
      rw [ih (i + 1) (f2.set j true) (c + 1), countP_set_true (matchScan_flag h)]
      simp [Nat.add_comm, Nat.add_assoc, Nat.add_left_comm]
    | none =>
      simp only [List.countP_cons, id]
      rw [ih (i + 1) f2 c]
      simp

lemma flaggedChars_length_le (s : PyStr) : ∀ f : List Bool,
    (flaggedChars s f).length ≤ f.countP id := by
  induction s with
  | nil => intro f; simp [flaggedChars]
  | cons a as ih =>
    intro f
    cases f with
    | nil => simp [flaggedChars]
    | cons x xs =>
      simp only [flaggedChars, List.zip_cons_cons, List.filterMap_cons, List.countP_cons, id]
      cases x with
      | true => simpa [flaggedChars] using ih xs
      | false => simpa [flaggedChars] using ih xs

lemma transCnt_le (s1 : PyStr) (f1 : List Bool) (s2 : PyStr) (f2 : List Bool) :
    transCnt s1 f1 s2 f2 ≤ f1.countP id := by
  unfold transCnt
  calc ((flaggedChars s1 f1).zip (flaggedChars s2 f2)).countP (fun p => p.1 != p.2)
      ≤ ((flaggedChars s1 f1).zip (flaggedChars s2 f2)).length := List.countP_le_length _
    _ ≤ (flaggedChars s1 f1).length := by
        rw [List.length_zip]; exact Nat.min_le_left _ _
    _ ≤ f1.countP id := flaggedChars_length_le s1 f1

lemma commonPfxLen_le : ∀ (a b : PyStr) (cap : Nat), commonPfxLen a b cap ≤ cap := by
  intro a
  induction a with
  | nil => intro b cap; cases b <;> cases cap <;> simp [commonPfxLen]
  | cons x xs ih =>
    intro b cap
    cases b with
    | nil => cases cap <;> simp [commonPfxLen]
    | cons y ys =>
      cases cap with
      | zero => simp [commonPfxLen]
      | succ n =>
        rw [commonPfxLen]
        split
        · have := ih ys n
          omega
        · omega

lemma jaroW_def (a b : PyStr) :
    jaroW a b =
      if a.length = 0 ∨ b.length = 0 then 0
      else if jcC a b = 0 then 0
      else if 7 / 10 < jcW a b then
        jcW a b + (commonPfxLen a b (min (min a.length b.length) 4) : ℚ) * (1 / 10)
          * (1 - jcW a b)
      else jcW a b := rfl

lemma jcC_le_left (a b : PyStr) : jcC a b ≤ a.length := by
  unfold jcC jcR
  rw [jaroFlags_cnt]
  simpa using le_trans (List.countP_le_length _)
    (le_of_eq (jaroFlags_fst_length b _ a 0 _ 0))

lemma jcC_le_right (a b : PyStr) : jcC a b ≤ b.length := by
  unfold jcC jcR
  rw [jaroFlags_cnt]
  have h1 := jaroFlags_f2_cnt b (max a.length b.length / 2 - 1) a 0
    (List.replicate b.length false) 0
  have h2 := jaroFlags_f2_length b (max a.length b.length / 2 - 1) a 0
    (List.replicate b.length false) 0
  have h3 : (List.replicate b.length false).countP id = 0 := by
    simp [List.countP_eq_zero]
  rw [h3] at h1
  simp only [Nat.zero_add] at h1 ⊢
  calc (jaroFlags b (max a.length b.length / 2 - 1) a 0 (List.replicate b.length false) 0).1.countP id
      = (jaroFlags b (max a.length b.length / 2 - 1) a 0 (List.replicate b.length false) 0).2.1.countP id := h1.symm
    _ ≤ (jaroFlags b (max a.length b.length / 2 - 1) a 0 (List.replicate b.length false) 0).2.1.length :=
        List.countP_le_length _
    _ = b.length := by rw [h2]; simp

lemma jcT_le (a b : PyStr) : jcT a b ≤ jcC a b := by
  unfold jcT jcC jcR
  rw [jaroFlags_cnt]
  simpa using le_trans (Nat.div_le_self _ 2) (transCnt_le a _ b _)

lemma jcW_bounds {a b : PyStr} (ha : 0 < a.length) (hb : 0 < b.length)
    (hc : 0 < jcC a b) : 0 ≤ jcW a b ∧ jcW a b ≤ 1 := by
  have hq1 : (0:ℚ) < (a.length : ℚ) := by exact_mod_cast ha
  have hq2 : (0:ℚ) < (b.length : ℚ) := by exact_mod_cast hb
  have hqc : (0:ℚ) < (jcC a b : ℚ) := by exact_mod_cast hc
  have h1a : (jcC a b : ℚ) / (a.length : ℚ) ≤ 1 := by
    rw [div_le_one hq1]; exact_mod_cast jcC_le_left a b
  have h1b : (jcC a b : ℚ) / (b.length : ℚ) ≤ 1 := by
    rw [div_le_one hq2]; exact_mod_cast jcC_le_right a b
  have h0a : (0:ℚ) ≤ (jcC a b : ℚ) / (a.length : ℚ) := div_nonneg (by positivity) (le_of_lt hq1)
  have h0b : (0:ℚ) ≤ (jcC a b : ℚ) / (b.length : ℚ) := div_nonneg (by positivity) (le_of_lt hq2)
  have htc : (jcT a b : ℚ) ≤ (jcC a b : ℚ) := by exact_mod_cast jcT_le a b
  have h0c : (0:ℚ) ≤ ((jcC a b : ℚ) - (jcT a b : ℚ)) / (jcC a b : ℚ) := by
    apply div_nonneg _ (le_of_lt hqc)
    linarith
  have h1c : ((jcC a b : ℚ) - (jcT a b : ℚ)) / (jcC a b : ℚ) ≤ 1 := by
    rw [div_le_one hqc]
    have : (0:ℚ) ≤ (jcT a b : ℚ) := by positivity
    linarith
  unfold jcW
  constructor <;> linarith

lemma jaroW_bounds (a b : PyStr) : 0 ≤ jaroW a b ∧ jaroW a b ≤ 1 := by
  rw [jaroW_def]
  split
  · norm_num
  · rename_i hlen
    push_neg at hlen
    have ha : 0 < a.length := Nat.pos_of_ne_zero hlen.1
    have hb : 0 < b.length := Nat.pos_of_ne_zero hlen.2
    split
    · norm_num
    · rename_i hc0
      have hc : 0 < jcC a b := Nat.pos_of_ne_zero hc0
      obtain ⟨hw0, hw1⟩ := jcW_bounds ha hb hc
      split
      · have hp4 : commonPfxLen a b (min (min a.length b.length) 4) ≤ 4 :=
          le_trans (commonPfxLen_le a b _) (Nat.min_le_right _ _)
        have hpq : (0:ℚ) ≤ (commonPfxLen a b (min (min a.length b.length) 4) : ℚ) := by
          positivity
        have hpq4 : (commonPfxLen a b (min (min a.length b.length) 4) : ℚ) ≤ 4 := by
          exact_mod_cast hp4
        constructor
        · have : (0:ℚ) ≤ (commonPfxLen a b (min (min a.length b.length) 4) : ℚ)
              * (1/10) * (1 - jcW a b) := by
            apply mul_nonneg (mul_nonneg hpq (by norm_num))
            linarith
          linarith
        · have : (commonPfxLen a b (min (min a.length b.length) 4) : ℚ)
              * (1/10) * (1 - jcW a b) ≤ 4 * (1/10) * (1 - jcW a b) := by
            apply mul_le_mul_of_nonneg_right _ (by linarith)
            apply mul_le_mul_of_nonneg_right hpq4 (by norm_num)
          nlinarith
      · exact ⟨hw0, hw1⟩

lemma jaroW_nonneg (a b : PyStr) : 0 ≤ jaroW a b := (jaroW_bounds a b).1

lemma jaroW_le_one (a b : PyStr) : jaroW a b ≤ 1 := (jaroW_bounds a b).2

/-! ## Effective scores: variant characterization and bounds -/

lemma max_shuffle (x y : ℚ) : max (max 0 x) y = max x (max y 0) := by
  rw [max_comm 0 x, max_assoc, max_comm 0 y]

lemma variants_eq_aux (f : PyStr → PyStr → ℚ) (tocr std : PyStr) :
    max (if brandTok.isPrefixOf (lower tocr) = true ∧ brandTok.isPrefixOf (lower std) = true then
          max 0 (min 1 (f (strip ((lower tocr).drop 6)) (strip ((lower std).drop 6)) * (11 / 10)))
        else if brandTok.isPrefixOf (lower tocr) = true ∧ ¬brandTok.isPrefixOf (lower std) = true then
          max 0 (min 1 (f (strip ((lower tocr).drop 6)) (lower std) * (6 / 5)))
        else if ¬brandTok.isPrefixOf (lower tocr) = true ∧ brandTok.isPrefixOf (lower std) = true then
          max 0 (min 1 (f (lower tocr) (strip ((lower std).drop 6)) * (23 / 20)))
        else 0)
      (max (f tocr std) (f (lower tocr) (lower std)))
    = listMax (variants f tocr std) := by
  unfold variants listMax
  by_cases hA : brandTok.isPrefixOf (lower tocr) = true <;>
    by_cases hB : brandTok.isPrefixOf (lower std) = true
  · have c1 : brandTok.isPrefixOf (lower tocr) = true ∧ brandTok.isPrefixOf (lower std) = true :=
      ⟨hA, hB⟩
    rw [if_pos c1, if_pos c1]
    simp only [List.cons_append, List.nil_append, List.foldr_cons, List.foldr_nil]
    exact max_shuffle _ _
  · have c1 : ¬(brandTok.isPrefixOf (lower tocr) = true ∧ brandTok.isPrefixOf (lower std) = true) := by
      tauto
    have c2 : brandTok.isPrefixOf (lower tocr) = true ∧ ¬brandTok.isPrefixOf (lower std) = true :=
      ⟨hA, hB⟩
    rw [if_neg c1, if_pos c2, if_neg c1, if_pos c2]
    simp only [List.cons_append, List.nil_append, List.foldr_cons, List.foldr_nil]
    exact max_shuffle _ _
  · have c1 : ¬(brandTok.isPrefixOf (lower tocr) = true ∧ brandTok.isPrefixOf (lower std) = true) := by
      tauto
    have c2 : ¬(brandTok.isPrefixOf (lower tocr) = true ∧ ¬brandTok.isPrefixOf (lower std) = true) := by
      tauto
    have c3 : ¬brandTok.isPrefixOf (lower tocr) = true ∧ brandTok.isPrefixOf (lower std) = true :=
      ⟨hA, hB⟩
    rw [if_neg c1, if_neg c2, if_pos c3, if_neg c1, if_neg c2, if_pos c3]
    simp only [List.cons_append, List.nil_append, List.foldr_cons, List.foldr_nil]
    exact max_shuffle _ _
  · have c1 : ¬(brandTok.isPrefixOf (lower tocr) = true ∧ brandTok.isPrefixOf (lower std) = true) := by
      tauto
    have c2 : ¬(brandTok.isPrefixOf (lower tocr) = true ∧ ¬brandTok.isPrefixOf (lower std) = true) := by
      tauto
    have c3 : ¬(¬brandTok.isPrefixOf (lower tocr) = true ∧ brandTok.isPrefixOf (lower std) = true) := by
      tauto
    rw [if_neg c1, if_neg c2, if_neg c3, if_neg c1, if_neg c2, if_neg c3]
    simp only [List.nil_append, List.foldr_cons, List.foldr_nil]
    rw [max_comm (0:ℚ)]

lemma curLev_eq_variants (tocr std : PyStr) :
    curLev tocr std = listMax (variants levN tocr std) := by
  have := variants_eq_aux levN tocr std
  unfold curLev
  exact this

lemma curJw_eq_variants (tocr std : PyStr) :
    curJw tocr std = listMax (variants jaroW tocr std) := by
  have := variants_eq_aux jaroW tocr std
  unfold curJw
  exact this

lemma clamp_mem_Icc (x : ℚ) : 0 ≤ max 0 (min 1 x) ∧ max 0 (min 1 x) ≤ 1 := by
  constructor
  · exact le_max_left 0 _
  · rcases le_total 1 x with h | h
    · simp [min_eq_left h]
    · rcases le_total 0 x with h0 | h0
      · rw [min_eq_right h]
        simp [h]
      · rw [min_eq_right h]
        simp
        linarith

lemma curLev_bounds (tocr std : PyStr) : 0 ≤ curLev tocr std ∧ curLev tocr std ≤ 1 := by
  unfold curLev
  have hb1 := levN_nonneg tocr std
  have hb2 := levN_le_one tocr std
  have hb3 := levN_nonneg (lower tocr) (lower std)
  have hb4 := levN_le_one (lower tocr) (lower std)
  constructor
  · refine le_trans hb1 (le_trans (le_max_left _ _) (le_max_right _ _))
  · apply max_le
    · split
      · exact (clamp_mem_Icc _).2
      · split
        · exact (clamp_mem_Icc _).2
        · split
          · exact (clamp_mem_Icc _).2
          · norm_num
    · exact max_le hb2 hb4

lemma curJw_bounds (tocr std : PyStr) : 0 ≤ curJw tocr std ∧ curJw tocr std ≤ 1 := by
  unfold curJw
  have hb1 := jaroW_nonneg tocr std
  have hb2 := jaroW_le_one tocr std
  have hb3 := jaroW_nonneg (lower tocr) (lower std)
  have hb4 := jaroW_le_one (lower tocr) (lower std)
  constructor
  · refine le_trans hb1 (le_trans (le_max_left _ _) (le_max_right _ _))
  · apply max_le
    · split
      · exact (clamp_mem_Icc _).2
      · split
        · exact (clamp_mem_Icc _).2
        · split
          · exact (clamp_mem_Icc _).2
          · norm_num
    · exact max_le hb2 hb4

/-! ## The scan as a first-maximum selection -/

lemma listMax_nonneg (l : List ℚ) : 0 ≤ listMax l := by
  induction l with
  | nil => exact le_refl 0
  | cons a t ih => exact le_trans ih (le_max_right a _)

lemma le_listMax {l : List ℚ} {x : ℚ} : x ∈ l → x ≤ listMax l := by
  induction l with
  | nil => intro h; simp at h
  | cons a t ih =>
    intro h
    rcases List.mem_cons.mp h with h | h
    · subst h
      exact le_max_left _ _
    · exact le_trans (ih h) (le_max_right a _)

lemma listMax_attained {l : List ℚ} : 0 < listMax l → listMax l ∈ l := by
  induction l with
  | nil => intro h; simp [listMax] at h
  | cons a t ih =>
    intro h
    have hc : listMax (a :: t) = max a (listMax t) := rfl
    rcases le_total (listMax t) a with hle | hle
    · rw [hc, max_eq_left hle]
      exact List.mem_cons_self a t
    · rw [hc, max_eq_right hle] at h ⊢
      exact List.mem_cons_of_mem a (ih h)

lemma find?_congr_mem {α : Type} {p q : α → Bool} {l : List α}
    (h : ∀ x ∈ l, p x = q x) : l.find? p = l.find? q := by
  induction l with
  | nil => rfl
  | cons a t ih =>
    rw [List.find?_cons, List.find?_cons, h a (List.mem_cons_self a t)]
    split
    · rfl
    · exact ih (fun x hx => h x (List.mem_cons_of_mem a hx))

lemma candFold_char :
    ∀ (cs : List (PyStr × ℚ × PyStr)) (st : Option PyStr × ℚ × PyStr),
      0 ≤ st.2.1 → (∀ c ∈ cs, 0 ≤ c.2.1) →
      cs.foldl candStep st =
        match cs.find? (fun c => decide (st.2.1 < c.2.1) && decide (maxSc cs ≤ c.2.1)) with
        | some c => (some c.1, c.2.1, c.2.2)
        | none => st := by
  intro cs
  induction cs with
  | nil => intro st h0 hs; simp
  | cons c rest ih =>
    intro st h0 hs
    have hrest : ∀ d ∈ rest, 0 ≤ d.2.1 := fun d hd => hs d (List.mem_cons_of_mem c hd)
    have hscle : ∀ d ∈ rest, d.2.1 ≤ maxSc rest := by
      intro d hd
      exact le_listMax (List.mem_map.mpr ⟨d, hd, rfl⟩)
    have hM : maxSc (c :: rest) = max c.2.1 (maxSc rest) := rfl
    rw [List.foldl_cons]
    by_cases hup : st.2.1 < c.2.1
    · have hstep : candStep st c = (some c.1, c.2.1, c.2.2) := by
        unfold candStep
        rw [if_pos hup]
      rw [hstep]
      have h0' : (0:ℚ) ≤ c.2.1 := le_of_lt (lt_of_le_of_lt h0 hup)
      have ihc := ih (some c.1, c.2.1, c.2.2) h0' hrest
      dsimp only at ihc
      rw [ihc]
      by_cases hcm : maxSc rest ≤ c.2.1
      · have hpc : (decide (st.2.1 < c.2.1) && decide (maxSc (c :: rest) ≤ c.2.1)) = true := by
          rw [hM]
          simp [hup, hcm]
        have hfc : List.find? (fun d => decide (st.2.1 < d.2.1) && decide (maxSc (c :: rest) ≤ d.2.1))
            (c :: rest) = some c := List.find?_cons_of_pos _ hpc
        have hnone : rest.find? (fun d => decide (c.2.1 < d.2.1) && decide (maxSc rest ≤ d.2.1))
            = none := by
          rw [List.find?_eq_none]
          intro d hd
          have : ¬ c.2.1 < d.2.1 := not_lt.mpr (le_trans (hscle d hd) hcm)
          simp [this]
        rw [hfc, hnone]
      · push_neg at hcm
        have hpc : (decide (st.2.1 < c.2.1) && decide (maxSc (c :: rest) ≤ c.2.1)) = false := by
          rw [hM]
          have : ¬ max c.2.1 (maxSc rest) ≤ c.2.1 := by
            intro hle
            exact absurd (le_trans (le_max_right _ _) hle) (not_le.mpr hcm)
          simp [this]
        have hfc : List.find? (fun d => decide (st.2.1 < d.2.1) && decide (maxSc (c :: rest) ≤ d.2.1))
            (c :: rest)
            = List.find? (fun d => decide (st.2.1 < d.2.1) && decide (maxSc (c :: rest) ≤ d.2.1)) rest :=
          List.find?_cons_of_neg _ (by rw [hpc]; exact Bool.false_ne_true)
        rw [hfc]
        have hMr : maxSc (c :: rest) = maxSc rest := by
          rw [hM, max_eq_right (le_of_lt hcm)]
        have hcong : rest.find? (fun d => decide (st.2.1 < d.2.1) && decide (maxSc (c :: rest) ≤ d.2.1))
            = rest.find? (fun d => decide (c.2.1 < d.2.1) && decide (maxSc rest ≤ d.2.1)) := by
          apply find?_congr_mem
          intro d hd
          rw [hMr]
          by_cases hdm : maxSc rest ≤ d.2.1
          · have h1 : c.2.1 < d.2.1 := lt_of_lt_of_le hcm hdm
            have h2 : st.2.1 < d.2.1 := lt_trans hup h1
            simp [hdm, h1, h2]
          · simp [hdm]
        rw [hcong]
        have hpos : 0 < maxSc rest := lt_of_le_of_lt h0' hcm
        clear hfc
        have hmem : maxSc rest ∈ rest.map (fun d => d.2.1) := listMax_attained hpos
        rcases List.mem_map.mp hmem with ⟨d, hd, hdeq⟩
        rcases hfind : rest.find? (fun d => decide (c.2.1 < d.2.1) && decide (maxSc rest ≤ d.2.1))
          with _ | e
        · exfalso
          rw [List.find?_eq_none] at hfind
          have := hfind d hd
          rw [hdeq] at this
          simp [hcm] at this
        · rw [hfind]
    · have hstep : candStep st c = st := by
        unfold candStep
        rw [if_neg hup]
      rw [hstep, ih st h0 hrest]
      have hpc : (decide (st.2.1 < c.2.1) && decide (maxSc (c :: rest) ≤ c.2.1)) = false := by
        simp [hup]
      have hfc : List.find? (fun d => decide (st.2.1 < d.2.1) && decide (maxSc (c :: rest) ≤ d.2.1))
          (c :: rest)
          = List.find? (fun d => decide (st.2.1 < d.2.1) && decide (maxSc (c :: rest) ≤ d.2.1)) rest :=
        List.find?_cons_of_neg _ (by rw [hpc]; exact Bool.false_ne_true)
      rw [hfc]
      have hcong : rest.find? (fun d => decide (st.2.1 < d.2.1) && decide (maxSc (c :: rest) ≤ d.2.1))
          = rest.find? (fun d => decide (st.2.1 < d.2.1) && decide (maxSc rest ≤ d.2.1)) := by
        apply find?_congr_mem
        intro d hd
        rw [hM]
        by_cases hdm : maxSc rest ≤ d.2.1
        · by_cases hsd : st.2.1 < d.2.1
          · have hcd : c.2.1 ≤ d.2.1 := by
              push_neg at hup
              exact le_trans hup (le_of_lt hsd)
            have hmx : max c.2.1 (maxSc rest) ≤ d.2.1 := max_le hcd hdm
            simp [hdm, hsd, hmx]
          · simp [hsd]
        · have hmx : ¬ max c.2.1 (maxSc rest) ≤ d.2.1 := by
            intro hle
            exact hdm (le_trans (le_max_right _ _) hle)
          simp [hdm, hmx]
      rw [hcong]

lemma entry_fold (tL tJ : ℚ) (tocr std : PyStr) (st : Option PyStr × ℚ × PyStr) :
    scanStep tL tJ tocr st std =
      ((if tL ≤ curLev tocr std then [(std, curLev tocr std, levLabel tocr std)] else [])
        ++ (if tJ ≤ curJw tocr std then [(std, curJw tocr std, jwLabel tocr std)] else [])).foldl
        candStep st := by
  by_cases h1 : tL ≤ curLev tocr std <;> by_cases h2 : tJ ≤ curJw tocr std <;>
    simp [scanStep, candStep, h1, h2]

lemma scan_eq_candFold (tL tJ : ℚ) (tocr : PyStr) :
    ∀ (R : List PyStr) (st : Option PyStr × ℚ × PyStr),
      R.foldl (scanStep tL tJ tocr) st = (candList R tL tJ tocr).foldl candStep st := by
  intro R
  induction R with
  | nil => intro st; rfl
  | cons std R' ih =>
    intro st
    have hc : candList (std :: R') tL tJ tocr =
        ((if tL ≤ curLev tocr std then [(std, curLev tocr std, levLabel tocr std)] else [])
          ++ (if tJ ≤ curJw tocr std then [(std, curJw tocr std, jwLabel tocr std)] else []))
          ++ candList R' tL tJ tocr := by
      unfold candList
      rw [List.flatMap_cons]
    rw [List.foldl_cons, hc, List.foldl_append, ← entry_fold, ih]

lemma mem_candList_iff {R : List PyStr} {tL tJ : ℚ} {tocr : PyStr} {c : PyStr × ℚ × PyStr} :
    c ∈ candList R tL tJ tocr ↔ ∃ std ∈ R,
      (tL ≤ curLev tocr std ∧ c = (std, curLev tocr std, levLabel tocr std))
      ∨ (tJ ≤ curJw tocr std ∧ c = (std, curJw tocr std, jwLabel tocr std)) := by
  unfold candList
  rw [List.mem_flatMap]
  constructor
  · rintro ⟨std, hstd, hmem⟩
    rcases List.mem_append.mp hmem with hmem | hmem
    · by_cases h : tL ≤ curLev tocr std
      · rw [if_pos h] at hmem
        simp at hmem
        exact ⟨std, hstd, Or.inl ⟨h, hmem⟩⟩
      · rw [if_neg h] at hmem
        simp at hmem
    · by_cases h : tJ ≤ curJw tocr std
      · rw [if_pos h] at hmem
        simp at hmem
        exact ⟨std, hstd, Or.inr ⟨h, hmem⟩⟩
      · rw [if_neg h] at hmem
        simp at hmem
  · rintro ⟨std, hstd, ⟨h, rfl⟩ | ⟨h, rfl⟩⟩
    · refine ⟨std, hstd, List.mem_append.mpr (Or.inl ?_)⟩
      rw [if_pos h]
      exact List.mem_singleton.mpr rfl
    · refine ⟨std, hstd, List.mem_append.mpr (Or.inr ?_)⟩
      rw [if_pos h]
      exact List.mem_singleton.mpr rfl

lemma candList_nonneg {R : List PyStr} {tL tJ : ℚ} {tocr : PyStr} :
    ∀ c ∈ candList R tL tJ tocr, 0 ≤ c.2.1 := by
  intro c hc
  rcases mem_candList_iff.mp hc with ⟨std, _, ⟨_, rfl⟩ | ⟨_, rfl⟩⟩
  · exact (curLev_bounds tocr std).1
  · exact (curJw_bounds tocr std).1

lemma candList_le_one {R : List PyStr} {tL tJ : ℚ} {tocr : PyStr} :
    ∀ c ∈ candList R tL tJ tocr, c.2.1 ≤ 1 := by
  intro c hc
  rcases mem_candList_iff.mp hc with ⟨std, _, ⟨_, rfl⟩ | ⟨_, rfl⟩⟩
  · exact (curLev_bounds tocr std).2
  · exact (curJw_bounds tocr std).2

lemma candList_mono {R : List PyStr} {tL tJ tL' tJ' : ℚ} {tocr : PyStr}
    (hL : tL ≤ tL') (hJ : tJ ≤ tJ') {c : PyStr × ℚ × PyStr}
    (h : c ∈ candList R tL' tJ' tocr) : c ∈ candList R tL tJ tocr := by
  rcases mem_candList_iff.mp h with ⟨std, hstd, ⟨hth, rfl⟩ | ⟨hth, rfl⟩⟩
  · exact mem_candList_iff.mpr ⟨std, hstd, Or.inl ⟨le_trans hL hth, rfl⟩⟩
  · exact mem_candList_iff.mpr ⟨std, hstd, Or.inr ⟨le_trans hJ hth, rfl⟩⟩

/-- The generic scan is the first candidate, in scan order, that carries a
strictly positive score at least as large as every candidate's score. -/
lemma genericScan_char (R : List PyStr) (tL tJ : ℚ) (tocr : PyStr) :
    genericScan R tL tJ tocr
      = (candList R tL tJ tocr).find?
          (fun c => decide ((0:ℚ) < c.2.1) && decide (maxSc (candList R tL tJ tocr) ≤ c.2.1)) := by
  unfold genericScan
  rw [scan_eq_candFold]
  rw [candFold_char (candList R tL tJ tocr) (none, 0, []) (by norm_num) candList_nonneg]
  dsimp only
  rcases hfind : (candList R tL tJ tocr).find?
      (fun c => decide ((0:ℚ) < c.2.1) && decide (maxSc (candList R tL tJ tocr) ≤ c.2.1))
    with _ | e <;> rw [hfind]

lemma genericScan_none_iff (R : List PyStr) (tL tJ : ℚ) (tocr : PyStr) :
    genericScan R tL tJ tocr = none ↔ ∀ c ∈ candList R tL tJ tocr, c.2.1 ≤ 0 := by
  rw [genericScan_char, List.find?_eq_none]
  constructor
  · intro h c hc
    by_contra hpos
    push_neg at hpos
    have hmax : 0 < maxSc (candList R tL tJ tocr) :=
      lt_of_lt_of_le hpos (le_listMax (List.mem_map.mpr ⟨c, hc, rfl⟩))
    have hmem : maxSc (candList R tL tJ tocr)
        ∈ (candList R tL tJ tocr).map (fun d => d.2.1) := listMax_attained hmax
    rcases List.mem_map.mp hmem with ⟨d, hd, hdeq⟩
    have := h d hd
    rw [hdeq] at this
    simp [hmax] at this
  · intro h c hc
    have := h c hc
    simp [not_lt.mpr this]

lemma genericScan_some_inv {R : List PyStr} {tL tJ : ℚ} {tocr : PyStr}
    {w : PyStr × ℚ × PyStr} (h : genericScan R tL tJ tocr = some w) :
    w ∈ candList R tL tJ tocr ∧ 0 < w.2.1 ∧ w.2.1 ≤ 1 := by
  rw [genericScan_char] at h
  have hmem := List.mem_of_find?_eq_some h
  have hp := List.find?_some h
  simp only [Bool.and_eq_true, decide_eq_true_eq] at hp
  exact ⟨hmem, hp.1, candList_le_one w hmem⟩

/-! ## Facts about the rule chain of find_best_match -/

lemma earlyRules_none_inv {R : List PyStr} {s : PyStr} (h : earlyRules R s = none) :
    strip s ≠ [] ∧ strip s ∉ R ∧ lower (strip s) ≠ "shein".toList := by
  unfold earlyRules at h
  by_cases h1 : strip s = []
  · rw [if_pos h1] at h
    simp at h
  · rw [if_neg h1] at h
    by_cases h2 : strip s ∈ R
    · rw [if_pos h2] at h
      simp at h
    · rw [if_neg h2] at h
      by_cases h3 : lower (strip s) = "shein".toList
      · rw [if_pos h3] at h
        simp at h
      · exact ⟨h1, h2, h3⟩

lemma earlyRules_some_inv {R : List PyStr} {s : PyStr} {m : PyStr} {sc : ℚ} {alg : PyStr}
    (h : earlyRules R s = some (some (m, sc, alg))) :
    m ∈ R ∧ strip s ∉ R ∧ sc = 1 := by
  unfold earlyRules at h
  by_cases h1 : strip s = []
  · rw [if_pos h1] at h
    simp at h
  · rw [if_neg h1] at h
    by_cases h2 : strip s ∈ R
    · rw [if_pos h2] at h
      simp at h
    · rw [if_neg h2] at h
      by_cases h3 : lower (strip s) = "shein".toList
      · rw [if_pos h3] at h
        simp at h
      · rw [if_neg h3] at h
        dsimp only at h
        rcases h4 : R.find? (fun std => lower std == lower (strip s)) with _ | m1
        · rw [h4] at h
          rcases h5 : (if lower (strip s) = "shein glowmode".toList
              then R.find? (fun std => lower std == "glowmode".toList) else none) with _ | m2
          · rw [h5] at h
            rcases h6 : (if lower (strip s) = "leisure".toList
                then R.find? (fun std => lower std == "shein leisure".toList) else none) with _ | m3
            · rw [h6] at h
              rcases h7 : (if brandTok.isPrefixOf (lower (strip s))
                  then R.find? (fun std => lower std == lower (strip ((strip s).drop 6)))
                  else none) with _ | m4
              · rw [h7] at h
                rcases h8 : R.find? (fun std =>
                    brandTok.isPrefixOf (lower std) && (strip ((lower std).drop 6) == lower (strip s)))
                    with _ | m5
                · rw [h8] at h
                  simp at h
                · rw [h8] at h
                  simp at h
                  obtain ⟨hm, hsc, -⟩ := h
                  exact ⟨hm ▸ List.mem_of_find?_eq_some h8, h2, hsc.symm⟩
              · rw [h7] at h
                simp at h
                obtain ⟨hm, hsc, -⟩ := h
                have hmem : m4 ∈ R := by
                  by_cases hc : brandTok.isPrefixOf (lower (strip s)) = true
                  · rw [if_pos hc] at h7
                    exact List.mem_of_find?_eq_some h7
                  · rw [if_neg hc] at h7
                    simp at h7
                exact ⟨hm ▸ hmem, h2, hsc.symm⟩
            · rw [h6] at h
              simp at h
              obtain ⟨hm, hsc, -⟩ := h
              have hmem : m3 ∈ R := by
                by_cases hc : lower (strip s) = "leisure".toList
                · rw [if_pos hc] at h6
                  exact List.mem_of_find?_eq_some h6
                · rw [if_neg hc] at h6
                  simp at h6
              exact ⟨hm ▸ hmem, h2, hsc.symm⟩
          · rw [h5] at h
            simp at h
            obtain ⟨hm, hsc, -⟩ := h
            have hmem : m2 ∈ R := by
              by_cases hc : lower (strip s) = "shein glowmode".toList
              · rw [if_pos hc] at h5
                exact List.mem_of_find?_eq_some h5
              · rw [if_neg hc] at h5
                simp at h5
            exact ⟨hm ▸ hmem, h2, hsc.symm⟩
        · rw [h4] at h
          simp at h
          obtain ⟨hm, hsc, -⟩ := h
          exact ⟨hm ▸ List.mem_of_find?_eq_some h4, h2, hsc.symm⟩

lemma find_best_match_some_inv {R : List PyStr} {tL tJ : ℚ} {s : PyStr} {m : PyStr}
    {sc : ℚ} {alg : PyStr} (h : find_best_match R tL tJ s = some (m, sc, alg)) :
    m ∈ R ∧ strip s ∉ R ∧ 0 < sc ∧ sc ≤ 1 := by
  rcases hE : earlyRules R s with _ | d
  · have heq : find_best_match R tL tJ s = genericScan R tL tJ (strip s) := by
      unfold find_best_match
      rw [hE]
    rw [heq] at h
    obtain ⟨hmem, hpos, hle⟩ := genericScan_some_inv h
    rcases mem_candList_iff.mp hmem with ⟨std, hstd, ⟨-, heq2⟩ | ⟨-, heq2⟩⟩
    · have hm : m = std := congrArg Prod.fst heq2
      exact ⟨hm ▸ hstd, (earlyRules_none_inv hE).2.1, hpos, hle⟩
    · have hm : m = std := congrArg Prod.fst heq2
      exact ⟨hm ▸ hstd, (earlyRules_none_inv hE).2.1, hpos, hle⟩
  · have heq : find_best_match R tL tJ s = d := by
      unfold find_best_match
      rw [hE]
    rw [heq] at h
    subst h
    obtain ⟨hm, hnotin, hsc⟩ := earlyRules_some_inv hE
    exact ⟨hm, hnotin, by rw [hsc]; norm_num, le_of_eq hsc⟩

lemma find_best_match_none_of_mem {R : List PyStr} {tL tJ : ℚ} {c : PyStr}
    (htrim : strip c = c) (hmem : c ∈ R) : find_best_match R tL tJ c = none := by
  unfold find_best_match earlyRules
  by_cases h1 : strip c = []
  · rw [if_pos h1]
  · rw [if_neg h1, if_pos (show strip c ∈ R by rw [htrim]; exact hmem)]

lemma find_best_match_mono {R : List PyStr} {tL tJ tL' tJ' : ℚ} {s : PyStr}
    (hL : tL ≤ tL') (hJ : tJ ≤ tJ')
    (h : find_best_match R tL tJ s = none) : find_best_match R tL' tJ' s = none := by
  rcases hE : earlyRules R s with _ | d
  · have heq : find_best_match R tL tJ s = genericScan R tL tJ (strip s) := by
      unfold find_best_match
      rw [hE]
    have heq2 : find_best_match R tL' tJ' s = genericScan R tL' tJ' (strip s) := by
      unfold find_best_match
      rw [hE]
    rw [heq] at h
    rw [heq2]
    rw [genericScan_none_iff] at h ⊢
    intro c hc
    exact h c (candList_mono hL hJ hc)
  · have heq : find_best_match R tL tJ s = d := by
      unfold find_best_match
      rw [hE]
    have heq2 : find_best_match R tL' tJ' s = d := by
      unfold find_best_match
      rw [hE]
    rw [heq] at h
    rw [heq2]
    exact h

/-! ## Token-list processing lemmas -/

lemma mem_of_mem_strip {c : Char} {s : PyStr} (h : c ∈ strip s) : c ∈ s := by
  unfold strip at h
  rw [List.mem_reverse] at h
  have h2 : c ∈ (s.dropWhile Char.isWhitespace).reverse :=
    (List.dropWhile_sublist _).mem h
  rw [List.mem_reverse] at h2
  exact (List.dropWhile_sublist _).mem h2

lemma splitComma_ne_nil : ∀ s : PyStr, splitComma s ≠ [] := by
  intro s
  cases s with
  | nil => simp [splitComma]
  | cons c rest =>
    rw [splitComma]
    by_cases hc : c = ','
    · rw [if_pos hc]
      simp
    · rw [if_neg hc]
      cases splitComma rest <;> simp

lemma splitComma_no_comma : ∀ (s : PyStr), ∀ x ∈ splitComma s, ',' ∉ x := by
  intro s
  induction s with
  | nil =>
    intro x hx
    simp [splitComma] at hx
    subst hx
    simp
  | cons c rest ih =>
    intro x hx
    rw [splitComma] at hx
    by_cases hc : c = ','
    · rw [if_pos hc] at hx
      rcases List.mem_cons.mp hx with h | h
      · subst h
        simp
      · exact ih x h
    · rw [if_neg hc] at hx
      rcases h2 : splitComma rest with _ | ⟨t, ts⟩
      · exact absurd h2 (splitComma_ne_nil rest)
      · rw [h2] at hx
        rcases List.mem_cons.mp hx with h | h
        · subst h
          intro hmem
          rcases List.mem_cons.mp hmem with h3 | h3
          · exact hc h3.symm
          · exact ih t (h2 ▸ List.mem_cons_self t ts) h3
        · exact ih x (h2 ▸ List.mem_cons_of_mem t h)

lemma splitComma_append {a : PyStr} (ha : ',' ∉ a) :
    ∀ r : PyStr, splitComma (a ++ ',' :: r) = a :: splitComma r := by
  induction a with
  | nil => intro r; simp [splitComma]
  | cons c cs ih =>
    intro r
    have hc : c ≠ ',' := fun h => ha (h ▸ List.mem_cons_self c cs)
    have hcs : ',' ∉ cs := fun h => ha (List.mem_cons_of_mem c h)
    rw [List.cons_append, splitComma, if_neg hc, ih hcs]

lemma splitComma_of_no_comma {a : PyStr} (ha : ',' ∉ a) : splitComma a = [a] := by
  induction a with
  | nil => rfl
  | cons c cs ih =>
    have hc : c ≠ ',' := fun h => ha (h ▸ List.mem_cons_self c cs)
    have hcs : ',' ∉ cs := fun h => ha (List.mem_cons_of_mem c h)
    rw [splitComma, if_neg hc, ih hcs]

lemma joinComma_cons (o : PyStr) (p : PyStr) (os : List PyStr) :
    joinComma (o :: p :: os) = o ++ ',' :: ' ' :: joinComma (p :: os) := rfl

lemma splitComma_joinComma :
    ∀ (os : List PyStr) (o : PyStr), (∀ x ∈ o :: os, ',' ∉ x) →
      splitComma (joinComma (o :: os)) = o :: os.map (fun x => ' ' :: x) := by
  intro os
  induction os with
  | nil =>
    intro o h
    exact splitComma_of_no_comma (h o (List.mem_cons_self o []))
  | cons p ps ih =>
    intro o h
    rw [joinComma_cons, splitComma_append (h o (List.mem_cons_self o _))]
    have h2 : ∀ x ∈ p :: ps, ',' ∉ x := fun x hx => h x (List.mem_cons_of_mem o hx)
    have h3 := ih p h2
    rcases h4 : splitComma (joinComma (p :: ps)) with _ | ⟨t, ts⟩
    · exact absurd h4 (splitComma_ne_nil _)
    · rw [h4] at h3
      have hjoin : joinComma (p :: ps) = t ++ ts.foldl (fun acc x => acc ++ x) [] ∨ True := Or.inr trivial
      have hne : (' ' : Char) ≠ ',' := by decide
      have h5 : splitComma (' ' :: joinComma (p :: ps)) = (' ' :: t) :: ts := by
        rw [splitComma, if_neg hne, h4]
      rw [h5]
      have ht : t = p := (List.cons.injEq _ _ _ _).mp h3 |>.1
      have hts : ts = ps.map (fun x => ' ' :: x) := (List.cons.injEq _ _ _ _).mp h3 |>.2
      rw [ht, hts]
      simp

lemma strip_eq_self_of_trimmed_cons_space {o : PyStr} (ho : strip o = o) :
    strip (' ' :: o) = o := by
  rw [strip_cons_space, ho]

lemma procNames_eq (R : List PyStr) (tL tJ : ℚ) : ∀ names : List PyStr,
    procNames R tL tJ names =
      ((names.filter (fun t => t ≠ [])).map (fun t =>
          match find_best_match R tL tJ t with
          | some r => r.1
          | none => t),
        (names.filter (fun t => t ≠ [])).filterMap (fun t =>
          (find_best_match R tL tJ t).map (fun r => ⟨t, r.1, r.2.1, r.2.2⟩))) := by
  intro names
  induction names with
  | nil => rfl
  | cons nm rest ih =>
    rw [procNames]
    by_cases hnm : nm = []
    · rw [if_pos hnm, ih]
      have : (nm :: rest).filter (fun t => t ≠ []) = rest.filter (fun t => t ≠ []) := by
        rw [List.filter_cons]
        simp [hnm]
      rw [this]
    · rw [if_neg hnm]
      have hf : (nm :: rest).filter (fun t => t ≠ []) = nm :: rest.filter (fun t => t ≠ []) := by
        rw [List.filter_cons]
        simp [hnm]
      rw [hf]
      rcases hm : find_best_match R tL tJ nm with _ | r
      · rw [ih]
        simp [hm]
      · rcases r with ⟨std, sim, alg⟩
        rw [ih]
        simp [hm]

lemma procNames_pass_through (R : List PyStr) (tL tJ : ℚ) : ∀ outs : List PyStr,
    (∀ o ∈ outs, o ≠ [] ∧ find_best_match R tL tJ o = none) →
    procNames R tL tJ outs = (outs, []) := by
  intro outs
  induction outs with
  | nil => intro h; rfl
  | cons o os ih =>
    intro h
    obtain ⟨hne, hnone⟩ := h o (List.mem_cons_self o os)
    rw [procNames, if_neg hne, hnone, ih (fun x hx => h x (List.mem_cons_of_mem o hx))]

lemma procNames_out_props (R : List PyStr) (tL tJ : ℚ)
    (hR : ∀ c ∈ R, strip c = c ∧ c ≠ [] ∧ ',' ∉ c) :
    ∀ names : List PyStr, (∀ nm ∈ names, strip nm = nm ∧ ',' ∉ nm) →
    ∀ o ∈ (procNames R tL tJ names).1,
      strip o = o ∧ o ≠ [] ∧ ',' ∉ o ∧ find_best_match R tL tJ o = none := by
  intro names
  induction names with
  | nil => intro _ o ho; simp [procNames] at ho
  | cons nm rest ih =>
    intro hn o ho
    have hrest : ∀ x ∈ rest, strip x = x ∧ ',' ∉ x :=
      fun x hx => hn x (List.mem_cons_of_mem nm hx)
    obtain ⟨hnm_trim, hnm_comma⟩ := hn nm (List.mem_cons_self nm rest)
    rw [procNames] at ho
    by_cases hnm : nm = []
    · rw [if_pos hnm] at ho
      exact ih hrest o ho
    · rw [if_neg hnm] at ho
      rcases hm : find_best_match R tL tJ nm with _ | r
      · rw [hm] at ho
        rcases List.mem_cons.mp ho with h | h
        · subst h
          exact ⟨hnm_trim, hnm, hnm_comma, hm⟩
        · exact ih hrest o h
      · rcases r with ⟨std, sim, alg⟩
        rw [hm] at ho
        rcases List.mem_cons.mp ho with h | h
        · subst h
          obtain ⟨hstd_mem, -, -, -⟩ := find_best_match_some_inv hm
          obtain ⟨ht, hne, hc⟩ := hR o hstd_mem
          exact ⟨ht, hne, hc, find_best_match_none_of_mem ht hstd_mem⟩
        · exact ih hrest o h

lemma procNames_rec_props {R : List PyStr} {tL tJ : ℚ} :
    ∀ names : List PyStr, (∀ nm ∈ names, strip nm = nm) →
    ∀ rec ∈ (procNames R tL tJ names).2,
      rec.replaced ∈ R ∧ rec.replaced ≠ rec.original
        ∧ 0 < rec.similarity ∧ rec.similarity ≤ 1 := by
  intro names
  induction names with
  | nil => intro _ rec hrec; simp [procNames] at hrec
  | cons nm rest ih =>
    intro hn rec hrec
    have hrest : ∀ x ∈ rest, strip x = x := fun x hx => hn x (List.mem_cons_of_mem nm hx)
    have hnm_trim := hn nm (List.mem_cons_self nm rest)
    rw [procNames] at hrec
    by_cases hnm : nm = []
    · rw [if_pos hnm] at hrec
      exact ih hrest rec hrec
    · rw [if_neg hnm] at hrec
      rcases hm : find_best_match R tL tJ nm with _ | r
      · rw [hm] at hrec
        exact ih hrest rec hrec
      · rcases r with ⟨std, sim, alg⟩
        rw [hm] at hrec
        rcases List.mem_cons.mp hrec with h | h
        · subst h
          obtain ⟨hstd_mem, hnotin, hpos, hle⟩ := find_best_match_some_inv hm
          refine ⟨hstd_mem, ?_, hpos, hle⟩
          intro heq
          dsimp only at heq
          rw [hnm_trim] at hnotin
          exact hnotin (heq ▸ hstd_mem)
        · exact ih hrest rec h

/-! ## Stability of the token processor (second pass is a no-op) -/

lemma head_mem_joinComma {c : Char} {o : PyStr} (hc : o.head? = some c) :
    ∀ os : List PyStr, c ∈ joinComma (o :: os) := by
  intro os
  have hco : c ∈ o := by
    cases o with
    | nil => simp at hc
    | cons a t =>
      simp at hc
      subst hc
      exact List.mem_cons_self _ _
  cases os with
  | nil => exact hco
  | cons p ps =>
    rw [joinComma_cons]
    exact List.mem_append.mpr (Or.inl hco)

lemma split_tokens_clean (s : PyStr) :
    ∀ nm ∈ (splitComma s).map strip, strip nm = nm ∧ ',' ∉ nm := by
  intro nm hnm
  rcases List.mem_map.mp hnm with ⟨x, hx, rfl⟩
  refine ⟨strip_strip x, fun hcm => ?_⟩
  exact splitComma_no_comma s x hx (mem_of_mem_strip hcm)

lemma process_comma_stable (R : List PyStr) (tL tJ : ℚ)
    (hR : ∀ c ∈ R, strip c = c ∧ c ≠ [] ∧ ',' ∉ c) (s : PyStr) :
    process_comma_separated_shop_names R tL tJ
        (process_comma_separated_shop_names R tL tJ s).1
      = ((process_comma_separated_shop_names R tL tJ s).1, []) := by
  by_cases hg : s = [] ∨ strip s = []
  · have h1 : process_comma_separated_shop_names R tL tJ s = (s, []) := by
      unfold process_comma_separated_shop_names
      rw [if_pos hg]
    rw [h1]
    unfold process_comma_separated_shop_names
    rw [if_pos hg]
  · have hp1 : (process_comma_separated_shop_names R tL tJ s).1
        = joinComma ((procNames R tL tJ ((splitComma s).map strip)).1) := by
      unfold process_comma_separated_shop_names
      rw [if_neg hg]
    have houts := procNames_out_props R tL tJ hR ((splitComma s).map strip)
      (split_tokens_clean s)
    rcases houts0 : (procNames R tL tJ ((splitComma s).map strip)).1 with _ | ⟨o, os⟩
    · rw [hp1, houts0]
      show process_comma_separated_shop_names R tL tJ [] = ([], [])
      unfold process_comma_separated_shop_names
      rw [if_pos (Or.inl rfl)]
    · rw [houts0] at houts
      have hall : ∀ x ∈ o :: os, strip x = x ∧ x ≠ [] ∧ ',' ∉ x
          ∧ find_best_match R tL tJ x = none := fun x hx => houts x hx
      obtain ⟨ho_trim, ho_ne, ho_comma, ho_none⟩ := hall o (List.mem_cons_self o os)
      rcases hhead : o.head? with _ | c
      · cases o with
        | nil => exact absurd rfl ho_ne
        | cons a t => simp at hhead
      have hcmem : c ∈ joinComma (o :: os) := head_mem_joinComma hhead os
      have hcnw : c.isWhitespace = false := strip_head_false_of_eq ho_trim hhead
      have hjne : joinComma (o :: os) ≠ [] := by
        intro hnil
        rw [hnil] at hcmem
        simp at hcmem
      have hsne : strip (joinComma (o :: os)) ≠ [] := strip_ne_nil hcmem hcnw
      have hg2 : ¬(joinComma (o :: os) = [] ∨ strip (joinComma (o :: os)) = []) := by
        intro h
        rcases h with h | h
        · exact hjne h
        · exact hsne h
      have hcfree : ∀ x ∈ o :: os, ',' ∉ x := fun x hx => (hall x hx).2.2.1
      have htok : (splitComma (joinComma (o :: os))).map strip = o :: os := by
        rw [splitComma_joinComma os o hcfree]
        rw [List.map_cons, ho_trim, List.map_map]
        congr 1
        have : ∀ x ∈ os, (strip ∘ fun y => ' ' :: y) x = id x := by
          intro x hx
          have := (hall x (List.mem_cons_of_mem o hx)).1
          simp [Function.comp, strip_cons_space, this]
        rw [List.map_congr_left this, List.map_id]
      have hpass : procNames R tL tJ (o :: os) = (o :: os, []) := by
        apply procNames_pass_through
        intro x hx
        exact ⟨(hall x hx).2.1, (hall x hx).2.2.2⟩
      rw [hp1, houts0]
      unfold process_comma_separated_shop_names
      rw [if_neg hg2]
      show (joinComma ((procNames R tL tJ ((splitComma (joinComma (o :: os))).map strip)).1),
        (procNames R tL tJ ((splitComma (joinComma (o :: os))).map strip)).2)
        = (joinComma (o :: os), [])
      rw [htok, hpass]

lemma pyProcessValue_stable (R : List PyStr) (tL tJ : ℚ)
    (hR : ∀ c ∈ R, strip c = c ∧ c ≠ [] ∧ ',' ∉ c) {v v1 : Json} {recs : List RepRec}
    (h : pyProcessValue R tL tJ v = .ok (v1, recs)) :
    pyProcessValue R tL tJ v1 = .ok (v1, []) := by
  cases v with
  | str s =>
    have hv1 : v1 = .str (process_comma_separated_shop_names R tL tJ s).1 := by
      unfold pyProcessValue at h
      simp at h
      exact h.1.symm
    subst hv1
    have hm : pyProcessValue R tL tJ
        (.str (process_comma_separated_shop_names R tL tJ s).1)
        = .ok (.str (process_comma_separated_shop_names R tL tJ
            (process_comma_separated_shop_names R tL tJ s).1).1,
          (process_comma_separated_shop_names R tL tJ
            (process_comma_separated_shop_names R tL tJ s).1).2) := rfl
    rw [hm, process_comma_stable R tL tJ hR s]
  | null =>
    have hm : pyProcessValue R tL tJ Json.null
        = (if truthy Json.null = true then Except.error () else Except.ok (Json.null, [])) := rfl
    rw [hm] at h
    have hb : ¬ truthy Json.null = true := by simp [truthy]
    rw [if_neg hb] at h
    simp at h
    obtain ⟨h1, -⟩ := h
    subst h1
    rw [hm, if_neg hb]
  | bool b =>
    have hm : pyProcessValue R tL tJ (Json.bool b)
        = (if truthy (Json.bool b) = true then Except.error ()
           else Except.ok (Json.bool b, [])) := rfl
    rw [hm] at h
    by_cases hb : truthy (Json.bool b) = true
    · rw [if_pos hb] at h
      simp at h
    · rw [if_neg hb] at h
      simp at h
      obtain ⟨h1, -⟩ := h
      subst h1
      rw [hm, if_neg hb]
  | num q =>
    have hm : pyProcessValue R tL tJ (Json.num q)
        = (if truthy (Json.num q) = true then Except.error ()
           else Except.ok (Json.num q, [])) := rfl
    rw [hm] at h
    by_cases hb : truthy (Json.num q) = true
    · rw [if_pos hb] at h
      simp at h
    · rw [if_neg hb] at h
      simp at h
      obtain ⟨h1, -⟩ := h
      subst h1
      rw [hm, if_neg hb]
  | arr xs =>
    have hm : pyProcessValue R tL tJ (Json.arr xs)
        = (if truthy (Json.arr xs) = true then Except.error ()
           else Except.ok (Json.arr xs, [])) := rfl
    rw [hm] at h
    by_cases hb : truthy (Json.arr xs) = true
    · rw [if_pos hb] at h
      simp at h
    · rw [if_neg hb] at h
      simp at h
      obtain ⟨h1, -⟩ := h
      subst h1
      rw [hm, if_neg hb]
  | obj kvs =>
    have hm : pyProcessValue R tL tJ (Json.obj kvs)
        = (if truthy (Json.obj kvs) = true then Except.error ()
           else Except.ok (Json.obj kvs, [])) := rfl
    rw [hm] at h
    by_cases hb : truthy (Json.obj kvs) = true
    · rw [if_pos hb] at h
      simp at h
    · rw [if_neg hb] at h
      simp at h
      obtain ⟨h1, -⟩ := h
      subst h1
      rw [hm, if_neg hb]

/-! ## Dictionary (association list) algebra -/

lemma objGet_cons (k0 : PyStr) (v0 : Json) (rest : List (PyStr × Json)) (k : PyStr) :
    objGet ((k0, v0) :: rest) k = if k0 = k then some v0 else objGet rest k := by
  by_cases h : k0 = k
  · rw [if_pos h]
    unfold objGet
    rw [List.find?_cons_of_pos _ (by simpa using h)]
    rfl
  · rw [if_neg h]
    unfold objGet
    rw [List.find?_cons_of_neg _ (by simpa using h)]

lemma objSet_cons (k0 : PyStr) (v0 : Json) (rest : List (PyStr × Json)) (k : PyStr) (v : Json) :
    objSet ((k0, v0) :: rest) k v
      = if k0 = k then (k0, v) :: rest else (k0, v0) :: objSet rest k v := by
  have hdef : objSet ((k0, v0) :: rest) k v
      = if (k0 == k) = true then (k0, v) :: rest else (k0, v0) :: objSet rest k v := rfl
  by_cases h : k0 = k
  · rw [hdef, if_pos (by simpa using h), if_pos h]
  · rw [hdef, if_neg (by simpa using h), if_neg h]

lemma objGet_set_self {kvs : List (PyStr × Json)} {k : PyStr} {w : Json} (v : Json)
    (h : objGet kvs k = some w) : objGet (objSet kvs k v) k = some v := by
  induction kvs with
  | nil => simp [objGet] at h
  | cons p rest ih =>
    rcases p with ⟨k0, v0⟩
    rw [objGet_cons] at h
    rw [objSet_cons]
    by_cases hk : k0 = k
    · rw [if_pos hk, objGet_cons, if_pos hk]
    · rw [if_neg hk] at h
      rw [if_neg hk, objGet_cons, if_neg hk]
      exact ih h

lemma objGet_set_ne {kvs : List (PyStr × Json)} {k k' : PyStr} (v : Json)
    (h : k ≠ k') : objGet (objSet kvs k v) k' = objGet kvs k' := by
  induction kvs with
  | nil => rfl
  | cons p rest ih =>
    rcases p with ⟨k0, v0⟩
    rw [objSet_cons]
    by_cases hk : k0 = k
    · have hk2 : k0 ≠ k' := fun he => h (hk ▸ he)
      rw [if_pos hk, objGet_cons, if_neg hk2, objGet_cons, if_neg hk2]
    · rw [if_neg hk, objGet_cons, objGet_cons]
      by_cases hk2 : k0 = k'
      · rw [if_pos hk2, if_pos hk2]
      · rw [if_neg hk2, if_neg hk2]
        exact ih

lemma objSet_objSet {kvs : List (PyStr × Json)} {k : PyStr} (a b : Json) :
    objSet (objSet kvs k a) k b = objSet kvs k b := by
  induction kvs with
  | nil => rfl
  | cons p rest ih =>
    rcases p with ⟨k0, v0⟩
    by_cases hk : k0 = k
    · rw [objSet_cons, if_pos hk, objSet_cons, if_pos hk, objSet_cons, if_pos hk]
    · rw [objSet_cons, if_neg hk, objSet_cons, if_neg hk, ih, objSet_cons, if_neg hk]

lemma objSet_comm {kvs : List (PyStr × Json)} {k k' : PyStr} (a b : Json)
    (h : k ≠ k') : objSet (objSet kvs k a) k' b = objSet (objSet kvs k' b) k a := by
  induction kvs with
  | nil => rfl
  | cons p rest ih =>
    rcases p with ⟨k0, v0⟩
    by_cases hk : k0 = k
    · have hk2 : k0 ≠ k' := fun he => h (hk ▸ he)
      rw [objSet_cons, if_pos hk, objSet_cons, if_neg hk2, objSet_cons, if_neg hk2,
        objSet_cons, if_pos hk]
    · by_cases hk2 : k0 = k'
      · rw [objSet_cons, if_neg hk, objSet_cons, if_pos hk2, objSet_cons, if_pos hk2,
          objSet_cons, if_neg hk]
      · rw [objSet_cons, if_neg hk, objSet_cons, if_neg hk2, objSet_cons, if_neg hk2,
          objSet_cons, if_neg hk, ih]

lemma objSet_id {kvs : List (PyStr × Json)} {k : PyStr} {v : Json}
    (h : objGet kvs k = some v) : objSet kvs k v = kvs := by
  induction kvs with
  | nil => rfl
  | cons p rest ih =>
    rcases p with ⟨k0, v0⟩
    rw [objGet_cons] at h
    by_cases hk : k0 = k
    · rw [if_pos hk] at h
      have hv : v0 = v := Option.some.inj h
      rw [objSet_cons, if_pos hk, hv]
    · rw [if_neg hk] at h
      rw [objSet_cons, if_neg hk, ih h]

/-! ## Walker stability: a second pass rewrites nothing -/

lemma ebind_ok {α β : Type} (a : α) (f : α → Except Unit β) :
    (Except.ok a >>= f : Except Unit β) = f a := rfl

lemma processOneField_shape {R : List PyStr} {tL tJ : ℚ} {fname : PyStr} {fv fv1 : Json}
    {recs : List RepRec} (h : processOneField R tL tJ fname fv = .ok (fv1, recs)) :
    (fv1 = fv ∧ recs = []) ∨
    ∃ fkvs inner v v1, fv = .obj fkvs ∧ objGet fkvs fname = some (.obj inner)
      ∧ objGet inner vsKey = some v ∧ pyProcessValue R tL tJ v = .ok (v1, recs)
      ∧ fv1 = .obj (objSet fkvs fname (.obj (objSet inner vsKey v1))) := by
  cases fv with
  | obj fkvs =>
    unfold processOneField at h
    dsimp only at h
    rcases hg : objGet fkvs fname with _ | fval
    · rw [hg] at h
      dsimp only at h
      injection h with h3
      injection h3 with h4 h5
      exact Or.inl ⟨h4.symm, h5.symm⟩
    · rw [hg] at h
      cases fval with
      | obj inner =>
        dsimp only at h
        rcases hvs : objGet inner vsKey with _ | v
        · rw [hvs] at h
          dsimp only at h
          injection h with h3
          injection h3 with h4 h5
          exact Or.inl ⟨h4.symm, h5.symm⟩
        · rw [hvs] at h
          dsimp only at h
          rcases hpv : pyProcessValue R tL tJ v with e | pr
          · rw [hpv] at h
            exact Except.noConfusion h
          · rcases pr with ⟨v1, recs1⟩
            rw [hpv] at h
            have h2 : Except.ok (ε := Unit)
                (Json.obj (objSet fkvs fname (.obj (objSet inner vsKey v1))), recs1)
                = Except.ok (fv1, recs) := h
            injection h2 with h3
            injection h3 with h4 h5
            subst h5
            exact Or.inr ⟨fkvs, inner, v, v1, rfl, hg, hvs, hpv, h4.symm⟩
      | null =>
        dsimp only at h
        injection h with h3
        injection h3 with h4 h5
        exact Or.inl ⟨h4.symm, h5.symm⟩
      | bool b =>
        dsimp only at h
        injection h with h3
        injection h3 with h4 h5
        exact Or.inl ⟨h4.symm, h5.symm⟩
      | num q =>
        dsimp only at h
        injection h with h3
        injection h3 with h4 h5
        exact Or.inl ⟨h4.symm, h5.symm⟩
      | str s =>
        dsimp only at h
        injection h with h3
        injection h3 with h4 h5
        exact Or.inl ⟨h4.symm, h5.symm⟩
      | arr xs =>
        dsimp only at h
        injection h with h3
        injection h3 with h4 h5
        exact Or.inl ⟨h4.symm, h5.symm⟩
  | null =>
    exact Except.noConfusion h
  | bool b =>
    exact Except.noConfusion h
  | num q =>
    exact Except.noConfusion h
  | str s =>
    unfold processOneField at h
    dsimp only at h
    by_cases hb : isSubstr fname s = true
    · rw [if_pos hb] at h
      exact Except.noConfusion h
    · rw [if_neg hb] at h
      injection h with h3
      injection h3 with h4 h5
      exact Or.inl ⟨h4.symm, h5.symm⟩
  | arr xs =>
    unfold processOneField at h
    dsimp only at h
    by_cases hb : (xs.any (fun x => match x with | .str s => s == fname | _ => false)) = true
    · rw [if_pos hb] at h
      exact Except.noConfusion h
    · rw [if_neg hb] at h
      injection h with h3
      injection h3 with h4 h5
      exact Or.inl ⟨h4.symm, h5.symm⟩

lemma processOneField_stable (R : List PyStr) (tL tJ : ℚ)
    (hR : ∀ c ∈ R, strip c = c ∧ c ≠ [] ∧ ',' ∉ c) {fname : PyStr} {fv fv1 : Json}
    {recs : List RepRec} (h : processOneField R tL tJ fname fv = .ok (fv1, recs)) :
    processOneField R tL tJ fname fv1 = .ok (fv1, []) := by
  rcases processOneField_shape h with ⟨hfv, hrecs⟩ | ⟨fkvs, inner, v, v1, hfv, hg, hvs, hpv, hfv1⟩
  · subst hfv
    subst hrecs
    exact h
  · subst hfv1
    unfold processOneField
    dsimp only
    rw [objGet_set_self _ hg]
    dsimp only
    rw [objGet_set_self _ hvs]
    dsimp only
    rw [pyProcessValue_stable R tL tJ hR hpv]
    show Except.ok (Json.obj (objSet (objSet fkvs fname (Json.obj (objSet inner vsKey v1))) fname
        (Json.obj (objSet (objSet inner vsKey v1) vsKey v1))), ([] : List RepRec)) = _
    rw [objSet_objSet, objSet_objSet]

lemma processOneField_noop_transport (R : List PyStr) (tL tJ : ℚ) {f g : PyStr}
    (hfg : f ≠ g) {l : List (PyStr × Json)}
    (hst : processOneField R tL tJ f (.obj l) = .ok (.obj l, []))
    (X : Json) :
    processOneField R tL tJ f (.obj (objSet l g X)) = .ok (.obj (objSet l g X), []) := by
  have hgf : objGet (objSet l g X) f = objGet l f := objGet_set_ne X (Ne.symm hfg)
  unfold processOneField at hst ⊢
  dsimp only at hst ⊢
  rw [hgf]
  rcases hf : objGet l f with _ | w
  · simp [hf]
  · rw [hf] at hst
    cases w with
    | obj innf =>
      dsimp only at hst ⊢
      rcases hvf : objGet innf vsKey with _ | vf
      · simp [hvf]
      · rw [hvf] at hst
        dsimp only at hst ⊢
        rcases hpv : pyProcessValue R tL tJ vf with e | pr
        · rw [hpv] at hst
          exact Except.noConfusion hst
        · rcases pr with ⟨vf1, recsf⟩
          rw [hpv] at hst
          have hst2 : Except.ok (ε := Unit)
              (Json.obj (objSet l f (.obj (objSet innf vsKey vf1))), recsf)
              = Except.ok (Json.obj l, ([] : List RepRec)) := hst
          injection hst2 with h3
          injection h3 with h4 h5
          injection h4 with heq
          show Except.ok (Json.obj (objSet (objSet l g X) f (.obj (objSet innf vsKey vf1))), recsf)
            = Except.ok (Json.obj (objSet l g X), [])
          rw [objSet_comm _ _ (Ne.symm hfg), heq, h5]
    | null => rfl
    | bool b => rfl
    | num q => rfl
    | str s => rfl
    | arr xs => rfl

lemma shop_ne_bar : shopnameKey ≠ barKey := by decide

lemma processContent_stable (R : List PyStr) (tL tJ : ℚ)
    (hR : ∀ c ∈ R, strip c = c ∧ c ≠ [] ∧ ',' ∉ c) {idx cIdx idx2 cIdx2 : Nat}
    {content c1 : Json} {recs : List TagRec}
    (h : processContent R tL tJ idx cIdx content = .ok (c1, recs)) :
    processContent R tL tJ idx2 cIdx2 c1 = .ok (c1, []) := by
  cases content with
  | obj ckvs =>
    unfold processContent at h
    dsimp only at h
    rcases hg : objGet ckvs ("fields".toList) with _ | fv
    · rw [hg] at h
      injection h with h3
      injection h3 with h4 h5
      subst h4
      subst h5
      unfold processContent
      dsimp only
      rw [hg]
    · rw [hg] at h
      dsimp only at h
      rcases h1 : processOneField R tL tJ shopnameKey fv with e | pr1
      · rw [h1] at h
        exact Except.noConfusion h
      · rcases pr1 with ⟨fv1, r1⟩
        rw [h1] at h
        rw [ebind_ok] at h
        dsimp only at h
        rcases h2 : processOneField R tL tJ barKey fv1 with e | pr2
        · rw [h2] at h
          exact Except.noConfusion h
        · rcases pr2 with ⟨fv2, r2⟩
          rw [h2] at h
          rw [ebind_ok] at h
          dsimp only at h
          have h3 : Except.ok (ε := Unit) (Json.obj (objSet ckvs ("fields".toList) fv2),
              r1.map (tagWith idx cIdx shopnameKey) ++ r2.map (tagWith idx cIdx barKey))
              = Except.ok (c1, recs) := h
          injection h3 with h4
          injection h4 with h5 h6
          subst h5
          have hbar2 : processOneField R tL tJ barKey fv2 = .ok (fv2, []) :=
            processOneField_stable R tL tJ hR h2
          have hshop1 : processOneField R tL tJ shopnameKey fv1 = .ok (fv1, []) :=
            processOneField_stable R tL tJ hR h1
          have hshop2 : processOneField R tL tJ shopnameKey fv2 = .ok (fv2, []) := by
            rcases processOneField_shape h2 with ⟨hfv2, -⟩ |
              ⟨l, inner, v, v1, hfv1l, hg2, hvs2, hpv2, hfv2⟩
            · rw [hfv2]
              exact hshop1
            · subst hfv2
              rw [hfv1l] at hshop1
              exact processOneField_noop_transport R tL tJ shop_ne_bar hshop1 _
          unfold processContent
          dsimp only
          rw [objGet_set_self _ hg]
          dsimp only
          rw [hshop2, ebind_ok]
          dsimp only
          rw [hbar2, ebind_ok]
          dsimp only
          rw [objSet_objSet]
          simp
  | null =>
    unfold processContent at h
    injection h with h3
    injection h3 with h4 h5
    subst h4
    subst h5
    rfl
  | bool b =>
    unfold processContent at h
    injection h with h3
    injection h3 with h4 h5
    subst h4
    subst h5
    rfl
  | num q =>
    unfold processContent at h
    injection h with h3
    injection h3 with h4 h5
    subst h4
    subst h5
    rfl
  | str s =>
    unfold processContent at h
    injection h with h3
    injection h3 with h4 h5
    subst h4
    subst h5
    rfl
  | arr xs =>
    unfold processContent at h
    injection h with h3
    injection h3 with h4 h5
    subst h4
    subst h5
    rfl

lemma processContents_stable (R : List PyStr) (tL tJ : ℚ)
    (hR : ∀ c ∈ R, strip c = c ∧ c ≠ [] ∧ ',' ∉ c) :
    ∀ (cs : List Json) (idx cIdx idx2 cIdx2 : Nat) {cs1 : List Json} {recs : List TagRec},
    processContents R tL tJ idx cIdx cs = .ok (cs1, recs) →
    processContents R tL tJ idx2 cIdx2 cs1 = .ok (cs1, []) := by
  intro cs
  induction cs with
  | nil =>
    intro idx cIdx idx2 cIdx2 cs1 recs h
    unfold processContents at h
    injection h with h3
    injection h3 with h4 h5
    subst h4
    subst h5
    rfl
  | cons c rest ih =>
    intro idx cIdx idx2 cIdx2 cs1 recs h
    unfold processContents at h
    rcases hc : processContent R tL tJ idx cIdx c with e | pr
    · rw [hc] at h
      exact Except.noConfusion h
    · rcases pr with ⟨c1, r1⟩
      rw [hc, ebind_ok] at h
      dsimp only at h
      rcases hrest : processContents R tL tJ idx (cIdx + 1) rest with e | pr2
      · rw [hrest] at h
        exact Except.noConfusion h
      · rcases pr2 with ⟨rest1, r2⟩
        rw [hrest, ebind_ok] at h
        dsimp only at h
        injection h with h3
        injection h3 with h4 h5
        subst h4
        have hc1 : processContent R tL tJ idx2 cIdx2 c1 = .ok (c1, []) :=
          processContent_stable R tL tJ hR hc
        have hrest1 : processContents R tL tJ idx2 (cIdx2 + 1) rest1 = .ok (rest1, []) :=
          ih idx (cIdx + 1) idx2 (cIdx2 + 1) hrest
        unfold processContents
        rw [hc1, ebind_ok]
        dsimp only
        rw [hrest1, ebind_ok]
        rfl

lemma processItem_stable (R : List PyStr) (tL tJ : ℚ)
    (hR : ∀ c ∈ R, strip c = c ∧ c ≠ [] ∧ ',' ∉ c) {idx idx2 : Nat}
    {item it1 : Json} {recs : List TagRec}
    (h : processItem R tL tJ idx item = .ok (it1, recs)) :
    processItem R tL tJ idx2 it1 = .ok (it1, []) := by
  cases item with
  | obj kvs =>
    unfold processItem at h
    dsimp only at h
    rcases hg : objGet kvs ("result".toList) with _ | rv
    · rw [hg] at h
      injection h with h3
      injection h3 with h4 h5
      subst h4
      subst h5
      unfold processItem
      dsimp only
      rw [hg]
    · rw [hg] at h
      cases rv with
      | obj rkvs =>
        dsimp only at h
        rcases hc : objGet rkvs ("contents".toList) with _ | cv
        · rw [hc] at h
          injection h with h3
          injection h3 with h4 h5
          subst h4
          subst h5
          unfold processItem
          dsimp only
          rw [hg]
          dsimp only
          rw [hc]
        · rw [hc] at h
          cases cv with
          | arr cs =>
            dsimp only at h
            rcases hcs : processContents R tL tJ idx 0 cs with e | pr
            · rw [hcs] at h
              exact Except.noConfusion h
            · rcases pr with ⟨cs1, r1⟩
              rw [hcs, ebind_ok] at h
              dsimp only at h
              injection h with h3
              injection h3 with h4 h5
              subst h4
              have hcs1 : processContents R tL tJ idx2 0 cs1 = .ok (cs1, []) :=
                processContents_stable R tL tJ hR cs idx 0 idx2 0 hcs
              unfold processItem
              dsimp only
              rw [objGet_set_self _ hg]
              dsimp only
              rw [objGet_set_self _ hc]
              dsimp only
              rw [hcs1, ebind_ok]
              dsimp only
              rw [objSet_objSet, objSet_objSet]
          | null =>
            injection h with h3
            injection h3 with h4 h5
            subst h4
            subst h5
            unfold processItem
            dsimp only
            rw [hg]
            dsimp only
            rw [hc]
          | bool b =>
            injection h with h3
            injection h3 with h4 h5
            subst h4
            subst h5
            unfold processItem
            dsimp only
            rw [hg]
            dsimp only
            rw [hc]
          | num q =>
            injection h with h3
            injection h3 with h4 h5
            subst h4
            subst h5
            unfold processItem
            dsimp only
            rw [hg]
            dsimp only
            rw [hc]
          | str s =>
            injection h with h3
            injection h3 with h4 h5
            subst h4
            subst h5
            unfold processItem
            dsimp only
            rw [hg]
            dsimp only
            rw [hc]
          | obj okvs =>
            injection h with h3
            injection h3 with h4 h5
            subst h4
            subst h5
            unfold processItem
            dsimp only
            rw [hg]
            dsimp only
            rw [hc]
      | null =>
        injection h with h3
        injection h3 with h4 h5
        subst h4
        subst h5
        unfold processItem
        dsimp only
        rw [hg]
      | bool b =>
        injection h with h3
        injection h3 with h4 h5
        subst h4
        subst h5
        unfold processItem
        dsimp only
        rw [hg]
      | num q =>
        injection h with h3
        injection h3 with h4 h5
        subst h4
        subst h5
        unfold processItem
        dsimp only
        rw [hg]
      | str s =>
        injection h with h3
        injection h3 with h4 h5
        subst h4
        subst h5
        unfold processItem
        dsimp only
        rw [hg]
      | arr xs =>
        injection h with h3
        injection h3 with h4 h5
        subst h4
        subst h5
        unfold processItem
        dsimp only
        rw [hg]
  | null =>
    injection h with h3
    injection h3 with h4 h5
    subst h4
    subst h5
    rfl
  | bool b =>
    injection h with h3
    injection h3 with h4 h5
    subst h4
    subst h5
    rfl
  | num q =>
    injection h with h3
    injection h3 with h4 h5
    subst h4
    subst h5
    rfl
  | str s =>
    injection h with h3
    injection h3 with h4 h5
    subst h4
    subst h5
    rfl
  | arr xs =>
    injection h with h3
    injection h3 with h4 h5
    subst h4
    subst h5
    rfl

lemma processItems_stable (R : List PyStr) (tL tJ : ℚ)
    (hR : ∀ c ∈ R, strip c = c ∧ c ≠ [] ∧ ',' ∉ c) :
    ∀ (its : List Json) (idx idx2 : Nat) {its1 : List Json} {recs : List TagRec},
    processItems R tL tJ idx its = .ok (its1, recs) →
    processItems R tL tJ idx2 its1 = .ok (its1, []) := by
  intro its
  induction its with
  | nil =>
    intro idx idx2 its1 recs h
    unfold processItems at h
    injection h with h3
    injection h3 with h4 h5
    subst h4
    subst h5
    rfl
  | cons it rest ih =>
    intro idx idx2 its1 recs h
    unfold processItems at h
    rcases hc : processItem R tL tJ idx it with e | pr
    · rw [hc] at h
      exact Except.noConfusion h
    · rcases pr with ⟨it1, r1⟩
      rw [hc, ebind_ok] at h
      dsimp only at h
      rcases hrest : processItems R tL tJ (idx + 1) rest with e | pr2
      · rw [hrest] at h
        exact Except.noConfusion h
      · rcases pr2 with ⟨rest1, r2⟩
        rw [hrest, ebind_ok] at h
        dsimp only at h
        injection h with h3
        injection h3 with h4 h5
        subst h4
        have hc1 : processItem R tL tJ idx2 it1 = .ok (it1, []) :=
          processItem_stable R tL tJ hR hc
        have hrest1 : processItems R tL tJ (idx2 + 1) rest1 = .ok (rest1, []) :=
          ih (idx + 1) (idx2 + 1) hrest
        unfold processItems
        rw [hc1, ebind_ok]
        dsimp only
        rw [hrest1, ebind_ok]
        rfl

lemma process_json_data_stable (R : List PyStr) (tL tJ : ℚ)
    (hR : ∀ c ∈ R, strip c = c ∧ c ≠ [] ∧ ',' ∉ c) {doc d1 : Json} {recs : List TagRec}
    (h : process_json_data R tL tJ doc = .ok (d1, recs)) :
    process_json_data R tL tJ d1 = .ok (d1, []) := by
  cases doc with
  | arr items =>
    unfold process_json_data at h
    dsimp only at h
    rcases hi : processItems R tL tJ 0 items with e | pr
    · rw [hi] at h
      exact Except.noConfusion h
    · rcases pr with ⟨items1, r1⟩
      rw [hi, ebind_ok] at h
      dsimp only at h
      injection h with h3
      injection h3 with h4 h5
      subst h4
      have hst : processItems R tL tJ 0 items1 = .ok (items1, []) :=
        processItems_stable R tL tJ hR items 0 0 hi
      unfold process_json_data
      dsimp only
      rw [hst, ebind_ok]
  | null =>
    injection h with h3
    injection h3 with h4 h5
    subst h4
    subst h5
    rfl
  | bool b =>
    injection h with h3
    injection h3 with h4 h5
    subst h4
    subst h5
    rfl
  | num q =>
    injection h with h3
    injection h3 with h4 h5
    subst h4
    subst h5
    rfl
  | str s =>
    injection h with h3
    injection h3 with h4 h5
    subst h4
    subst h5
    rfl
  | obj kvs =>
    injection h with h3
    injection h3 with h4 h5
    subst h4
    subst h5
    rfl

/-! ## Frame property: the walk only touches the two valueString slots -/

lemma eraseOneField_proc {R : List PyStr} {tL tJ : ℚ} {fname : PyStr} {fv fv1 : Json}
    {recs : List RepRec} (h : processOneField R tL tJ fname fv = .ok (fv1, recs)) :
    eraseOneField fname fv1 = eraseOneField fname fv := by
  rcases processOneField_shape h with ⟨hfv, -⟩ | ⟨fkvs, inner, v, v1, hfv, hg, hvs, hpv, hfv1⟩
  · rw [hfv]
  · subst hfv
    subst hfv1
    have hL : eraseOneField fname (.obj (objSet fkvs fname (.obj (objSet inner vsKey v1))))
        = .obj (objSet fkvs fname (.obj (objSet inner vsKey .null))) := by
      unfold eraseOneField
      dsimp only
      rw [objGet_set_self _ hg]
      dsimp only
      rw [objGet_set_self _ hvs]
      dsimp only
      rw [objSet_objSet, objSet_objSet]
    have hRr : eraseOneField fname (.obj fkvs)
        = .obj (objSet fkvs fname (.obj (objSet inner vsKey .null))) := by
      unfold eraseOneField
      dsimp only
      rw [hg]
      dsimp only
      rw [hvs]
    rw [hL, hRr]

lemma eraseOneField_objSet_ne {f g : PyStr} (hfg : f ≠ g)
    (fkvs : List (PyStr × Json)) (X : Json) :
    ∃ fkvs', eraseOneField f (.obj fkvs) = .obj fkvs'
      ∧ eraseOneField f (.obj (objSet fkvs g X)) = .obj (objSet fkvs' g X)
      ∧ ∀ k, k ≠ f → objGet fkvs' k = objGet fkvs k := by
  have hgf : objGet (objSet fkvs g X) f = objGet fkvs f := objGet_set_ne X (Ne.symm hfg)
  rcases hf : objGet fkvs f with _ | w
  · refine ⟨fkvs, ?_, ?_, fun k _ => rfl⟩
    · unfold eraseOneField
      dsimp only
      rw [hf]
    · unfold eraseOneField
      dsimp only
      rw [hgf, hf]
  · cases w with
    | obj inner =>
      rcases hvs : objGet inner vsKey with _ | v
      · refine ⟨fkvs, ?_, ?_, fun k _ => rfl⟩
        · unfold eraseOneField
          dsimp only
          rw [hf]
          dsimp only
          rw [hvs]
        · unfold eraseOneField
          dsimp only
          rw [hgf, hf]
          dsimp only
          rw [hvs]
      · refine ⟨objSet fkvs f (.obj (objSet inner vsKey .null)), ?_, ?_, ?_⟩
        · unfold eraseOneField
          dsimp only
          rw [hf]
          dsimp only
          rw [hvs]
        · unfold eraseOneField
          dsimp only
          rw [hgf, hf]
          dsimp only
          rw [hvs]
          dsimp only
          rw [objSet_comm _ _ (Ne.symm hfg)]
        · intro k hk
          exact objGet_set_ne _ (Ne.symm hk)
    | null =>
      refine ⟨fkvs, ?_, ?_, fun k _ => rfl⟩
      · unfold eraseOneField
        dsimp only
        rw [hf]
      · unfold eraseOneField
        dsimp only
        rw [hgf, hf]
    | bool b =>
      refine ⟨fkvs, ?_, ?_, fun k _ => rfl⟩
      · unfold eraseOneField
        dsimp only
        rw [hf]
      · unfold eraseOneField
        dsimp only
        rw [hgf, hf]
    | num q =>
      refine ⟨fkvs, ?_, ?_, fun k _ => rfl⟩
      · unfold eraseOneField
        dsimp only
        rw [hf]
      · unfold eraseOneField
        dsimp only
        rw [hgf, hf]
    | str s =>
      refine ⟨fkvs, ?_, ?_, fun k _ => rfl⟩
      · unfold eraseOneField
        dsimp only
        rw [hf]
      · unfold eraseOneField
        dsimp only
        rw [hgf, hf]
    | arr xs =>
      refine ⟨fkvs, ?_, ?_, fun k _ => rfl⟩
      · unfold eraseOneField
        dsimp only
        rw [hf]
      · unfold eraseOneField
        dsimp only
        rw [hgf, hf]

lemma eraseTwo_proc {R : List PyStr} {tL tJ : ℚ} {fv fv1 fv2 : Json}
    {r1 r2 : List RepRec}
    (h1 : processOneField R tL tJ shopnameKey fv = .ok (fv1, r1))
    (h2 : processOneField R tL tJ barKey fv1 = .ok (fv2, r2)) :
    eraseOneField barKey (eraseOneField shopnameKey fv2)
      = eraseOneField barKey (eraseOneField shopnameKey fv) := by
  have e1 : eraseOneField shopnameKey fv1 = eraseOneField shopnameKey fv :=
    eraseOneField_proc h1
  rcases processOneField_shape h2 with ⟨hfv2, -⟩
    | ⟨fkvs1, innerb, v, v1, hfv1, hg, hvs, hpv, hfv2⟩
  · rw [hfv2, e1]
  · subst hfv1
    subst hfv2
    obtain ⟨fkvs1', hE1, hE2, hGet⟩ :=
      eraseOneField_objSet_ne shop_ne_bar fkvs1 (.obj (objSet innerb vsKey v1))
    rw [hE2, ← e1, hE1]
    have hbar : objGet fkvs1' barKey = some (.obj innerb) := by
      rw [hGet barKey (Ne.symm shop_ne_bar)]
      exact hg
    have hL : eraseOneField barKey
        (.obj (objSet fkvs1' barKey (.obj (objSet innerb vsKey v1))))
        = .obj (objSet fkvs1' barKey (.obj (objSet innerb vsKey .null))) := by
      unfold eraseOneField
      dsimp only
      rw [objGet_set_self _ hbar]
      dsimp only
      rw [objGet_set_self _ hvs]
      dsimp only
      rw [objSet_objSet, objSet_objSet]
    have hRr : eraseOneField barKey (.obj fkvs1')
        = .obj (objSet fkvs1' barKey (.obj (objSet innerb vsKey .null))) := by
      unfold eraseOneField
      dsimp only
      rw [hbar]
      dsimp only
      rw [hvs]
    rw [hL, hRr]

lemma eraseContent_proc {R : List PyStr} {tL tJ : ℚ} {idx cIdx : Nat}
    {content c1 : Json} {recs : List TagRec}
    (h : processContent R tL tJ idx cIdx content = .ok (c1, recs)) :
    eraseContent c1 = eraseContent content := by
  cases content with
  | obj ckvs =>
    unfold processContent at h
    dsimp only at h
    rcases hF : objGet ckvs ("fields".toList) with _ | fv
    · rw [hF] at h
      injection h with h3
      injection h3 with h4 h5
      rw [← h4]
    · rw [hF] at h
      dsimp only at h
      rcases h1 : processOneField R tL tJ shopnameKey fv with e | pr1
      · rw [h1] at h
        exact Except.noConfusion h
      · rcases pr1 with ⟨fv1, r1⟩
        rw [h1, ebind_ok] at h
        dsimp only at h
        rcases h2 : processOneField R tL tJ barKey fv1 with e | pr2
        · rw [h2] at h
          exact Except.noConfusion h
        · rcases pr2 with ⟨fv2, r2⟩
          rw [h2, ebind_ok] at h
          dsimp only at h
          injection h with h3
          injection h3 with h4 h5
          rw [← h4]
          unfold eraseContent
          dsimp only
          rw [objGet_set_self _ hF]
          dsimp only
          rw [hF]
          dsimp only
          rw [objSet_objSet, eraseTwo_proc h1 h2]
  | null =>
    injection h with h3
    injection h3 with h4 h5
    rw [← h4]
  | bool b =>
    injection h with h3
    injection h3 with h4 h5
    rw [← h4]
  | num q =>
    injection h with h3
    injection h3 with h4 h5
    rw [← h4]
  | str s =>
    injection h with h3
    injection h3 with h4 h5
    rw [← h4]
  | arr xs =>
    injection h with h3
    injection h3 with h4 h5
    rw [← h4]

lemma eraseContents_proc {R : List PyStr} {tL tJ : ℚ} {idx : Nat} :
    ∀ (cs : List Json) (cIdx : Nat) {cs1 : List Json} {recs : List TagRec},
    processContents R tL tJ idx cIdx cs = .ok (cs1, recs) →
    cs1.map eraseContent = cs.map eraseContent := by
  intro cs
  induction cs with
  | nil =>
    intro cIdx cs1 recs h
    unfold processContents at h
    injection h with h3
    injection h3 with h4 h5
    rw [← h4]
  | cons c rest ih =>
    intro cIdx cs1 recs h
    unfold processContents at h
    rcases hc : processContent R tL tJ idx cIdx c with e | pr
    · rw [hc] at h
      exact Except.noConfusion h
    · rcases pr with ⟨c1, r1⟩
      rw [hc, ebind_ok] at h
      dsimp only at h
      rcases hrest : processContents R tL tJ idx (cIdx + 1) rest with e | pr2
      · rw [hrest] at h
        exact Except.noConfusion h
      · rcases pr2 with ⟨rest1, r2⟩
        rw [hrest, ebind_ok] at h
        dsimp only at h
        injection h with h3
        injection h3 with h4 h5
        rw [← h4]
        rw [List.map_cons, List.map_cons, eraseContent_proc hc, ih (cIdx + 1) hrest]

lemma eraseItem_proc {R : List PyStr} {tL tJ : ℚ} {idx : Nat}
    {item it1 : Json} {recs : List TagRec}
    (h : processItem R tL tJ idx item = .ok (it1, recs)) :
    eraseItem it1 = eraseItem item := by
  cases item with
  | obj kvs =>
    unfold processItem at h
    dsimp only at h
    rcases hg : objGet kvs ("result".toList) with _ | rv
    · rw [hg] at h
      injection h with h3
      injection h3 with h4 h5
      rw [← h4]
    · rw [hg] at h
      cases rv with
      | obj rkvs =>
        dsimp only at h
        rcases hc : objGet rkvs ("contents".toList) with _ | cv
        · rw [hc] at h
          injection h with h3
          injection h3 with h4 h5
          rw [← h4]
        · rw [hc] at h
          cases cv with
          | arr cs =>
            dsimp only at h
            rcases hcs : processContents R tL tJ idx 0 cs with e | pr
            · rw [hcs] at h
              exact Except.noConfusion h
            · rcases pr with ⟨cs1, r1⟩
              rw [hcs, ebind_ok] at h
              dsimp only at h
              injection h with h3
              injection h3 with h4 h5
              rw [← h4]
              unfold eraseItem
              dsimp only
              rw [objGet_set_self _ hg]
              dsimp only
              rw [objGet_set_self _ hc]
              dsimp only
              rw [hg]
              dsimp only
              rw [hc]
              dsimp only
              rw [objSet_objSet, objSet_objSet, eraseContents_proc cs 0 hcs]
          | null =>
            injection h with h3
            injection h3 with h4 h5
            rw [← h4]
          | bool b =>
            injection h with h3
            injection h3 with h4 h5
            rw [← h4]
          | num q =>
            injection h with h3
            injection h3 with h4 h5
            rw [← h4]
          | str s =>
            injection h with h3
            injection h3 with h4 h5
            rw [← h4]
          | obj okvs =>
            injection h with h3
            injection h3 with h4 h5
            rw [← h4]
      | null =>
        injection h with h3
        injection h3 with h4 h5
        rw [← h4]
      | bool b =>
        injection h with h3
        injection h3 with h4 h5
        rw [← h4]
      | num q =>
        injection h with h3
        injection h3 with h4 h5
        rw [← h4]
      | str s =>
        injection h with h3
        injection h3 with h4 h5
        rw [← h4]
      | arr xs =>
        injection h with h3
        injection h3 with h4 h5
        rw [← h4]
  | null =>
    injection h with h3
    injection h3 with h4 h5
    rw [← h4]
  | bool b =>
    injection h with h3
    injection h3 with h4 h5
    rw [← h4]
  | num q =>
    injection h with h3
    injection h3 with h4 h5
    rw [← h4]
  | str s =>
    injection h with h3
    injection h3 with h4 h5
    rw [← h4]
  | arr xs =>
    injection h with h3
    injection h3 with h4 h5
    rw [← h4]

lemma eraseItems_proc {R : List PyStr} {tL tJ : ℚ} :
    ∀ (its : List Json) (idx : Nat) {its1 : List Json} {recs : List TagRec},
    processItems R tL tJ idx its = .ok (its1, recs) →
    its1.map eraseItem = its.map eraseItem := by
  intro its
  induction its with
  | nil =>
    intro idx its1 recs h
    unfold processItems at h
    injection h with h3
    injection h3 with h4 h5
    rw [← h4]
  | cons it rest ih =>
    intro idx its1 recs h
    unfold processItems at h
    rcases hc : processItem R tL tJ idx it with e | pr
    · rw [hc] at h
      exact Except.noConfusion h
    · rcases pr with ⟨it1, r1⟩
      rw [hc, ebind_ok] at h
      dsimp only at h
      rcases hrest : processItems R tL tJ (idx + 1) rest with e | pr2
      · rw [hrest] at h
        exact Except.noConfusion h
      · rcases pr2 with ⟨rest1, r2⟩
        rw [hrest, ebind_ok] at h
        dsimp only at h
        injection h with h3
        injection h3 with h4 h5
        rw [← h4]
        rw [List.map_cons, List.map_cons, eraseItem_proc hc, ih (idx + 1) hrest]

lemma eraseDoc_proc {R : List PyStr} {tL tJ : ℚ} {doc d1 : Json} {recs : List TagRec}
    (h : process_json_data R tL tJ doc = .ok (d1, recs)) :
    eraseDoc d1 = eraseDoc doc := by
  cases doc with
  | arr items =>
    unfold process_json_data at h
    dsimp only at h
    rcases hi : processItems R tL tJ 0 items with e | pr
    · rw [hi] at h
      exact Except.noConfusion h
    · rcases pr with ⟨items1, r1⟩
      rw [hi, ebind_ok] at h
      dsimp only at h
      injection h with h3
      injection h3 with h4 h5
      rw [← h4]
      unfold eraseDoc
      dsimp only
      rw [eraseItems_proc items 0 hi]
  | null =>
    injection h with h3
    injection h3 with h4 h5
    rw [← h4]
  | bool b =>
    injection h with h3
    injection h3 with h4 h5
    rw [← h4]
  | num q =>
    injection h with h3
    injection h3 with h4 h5
    rw [← h4]
  | str s =>
    injection h with h3
    injection h3 with h4 h5
    rw [← h4]
  | obj kvs =>
    injection h with h3
    injection h3 with h4 h5
    rw [← h4]

/-! ## Shape-based skipping of malformed fields -/

lemma pyProcessValue_falsy {R : List PyStr} {tL tJ : ℚ} {v : Json}
    (h : truthy v = false) : pyProcessValue R tL tJ v = .ok (v, []) := by
  cases v with
  | str s =>
    have hs : s = [] := by
      cases s with
      | nil => rfl
      | cons a t => simp [truthy] at h
    subst hs
    rfl
  | null => rfl
  | bool b =>
    have hm : pyProcessValue R tL tJ (Json.bool b)
        = (if truthy (Json.bool b) = true then Except.error ()
           else Except.ok (Json.bool b, [])) := rfl
    rw [hm, if_neg (by simp [h])]
  | num q =>
    have hm : pyProcessValue R tL tJ (Json.num q)
        = (if truthy (Json.num q) = true then Except.error ()
           else Except.ok (Json.num q, [])) := rfl
    rw [hm, if_neg (by simp [h])]
  | arr xs =>
    have hm : pyProcessValue R tL tJ (Json.arr xs)
        = (if truthy (Json.arr xs) = true then Except.error ()
           else Except.ok (Json.arr xs, [])) := rfl
    rw [hm, if_neg (by simp [h])]
  | obj kvs =>
    have hm : pyProcessValue R tL tJ (Json.obj kvs)
        = (if truthy (Json.obj kvs) = true then Except.error ()
           else Except.ok (Json.obj kvs, [])) := rfl
    rw [hm, if_neg (by simp [h])]

lemma pyProcessValue_truthy_nonstr {R : List PyStr} {tL tJ : ℚ} {v : Json}
    (h : truthy v = true) (hs : ∀ s, v ≠ .str s) :
    pyProcessValue R tL tJ v = .error () := by
  cases v with
  | str s => exact absurd rfl (hs s)
  | null => simp [truthy] at h
  | bool b =>
    have hm : pyProcessValue R tL tJ (Json.bool b)
        = (if truthy (Json.bool b) = true then Except.error ()
           else Except.ok (Json.bool b, [])) := rfl
    rw [hm, if_pos h]
  | num q =>
    have hm : pyProcessValue R tL tJ (Json.num q)
        = (if truthy (Json.num q) = true then Except.error ()
           else Except.ok (Json.num q, [])) := rfl
    rw [hm, if_pos h]
  | arr xs =>
    have hm : pyProcessValue R tL tJ (Json.arr xs)
        = (if truthy (Json.arr xs) = true then Except.error ()
           else Except.ok (Json.arr xs, [])) := rfl
    rw [hm, if_pos h]
  | obj kvs =>
    have hm : pyProcessValue R tL tJ (Json.obj kvs)
        = (if truthy (Json.obj kvs) = true then Except.error ()
           else Except.ok (Json.obj kvs, [])) := rfl
    rw [hm, if_pos h]

/-! ## Properties of the produced replacement records -/

lemma process_comma_recs (R : List PyStr) (tL tJ : ℚ) (s : PyStr) :
    ∀ r ∈ (process_comma_separated_shop_names R tL tJ s).2,
      r.replaced ∈ R ∧ r.replaced ≠ r.original
        ∧ 0 < r.similarity ∧ r.similarity ≤ 1 := by
  intro r hr
  unfold process_comma_separated_shop_names at hr
  by_cases hg : s = [] ∨ strip s = []
  · rw [if_pos hg] at hr
    simp at hr
  · rw [if_neg hg] at hr
    dsimp only at hr
    exact procNames_rec_props ((splitComma s).map strip)
      (fun nm hnm => (split_tokens_clean s nm hnm).1) r hr

lemma pyProcessValue_recs {R : List PyStr} {tL tJ : ℚ} {v v1 : Json} {recs : List RepRec}
    (h : pyProcessValue R tL tJ v = .ok (v1, recs)) :
    ∀ r ∈ recs, r.replaced ∈ R ∧ r.replaced ≠ r.original
      ∧ 0 < r.similarity ∧ r.similarity ≤ 1 := by
  intro r hr
  by_cases ht : truthy v = true
  · by_cases hstr : ∃ s, v = .str s
    · obtain ⟨s, rfl⟩ := hstr
      have hm : pyProcessValue R tL tJ (.str s)
          = .ok (.str (process_comma_separated_shop_names R tL tJ s).1,
              (process_comma_separated_shop_names R tL tJ s).2) := rfl
      rw [hm] at h
      injection h with h3
      injection h3 with h4 h5
      rw [← h5] at hr
      exact process_comma_recs R tL tJ s r hr
    · push_neg at hstr
      rw [pyProcessValue_truthy_nonstr ht hstr] at h
      exact Except.noConfusion h
  · rw [pyProcessValue_falsy (Bool.not_eq_true _ ▸ ht)] at h
    injection h with h3
    injection h3 with h4 h5
    rw [← h5] at hr
    simp at hr

lemma processOneField_recs {R : List PyStr} {tL tJ : ℚ} {fname : PyStr} {fv fv1 : Json}
    {recs : List RepRec} (h : processOneField R tL tJ fname fv = .ok (fv1, recs)) :
    ∀ r ∈ recs, r.replaced ∈ R ∧ r.replaced ≠ r.original
      ∧ 0 < r.similarity ∧ r.similarity ≤ 1 := by
  rcases processOneField_shape h with ⟨-, hrecs⟩ | ⟨fkvs, inner, v, v1, -, -, -, hpv, -⟩
  · subst hrecs
    intro r hr
    simp at hr
  · exact pyProcessValue_recs hpv

lemma fieldPath_ne_nil (idx cIdx : Nat) (fname : PyStr) : fieldPath idx cIdx fname ≠ [] := by
  unfold fieldPath
  exact List.cons_ne_nil _ _

lemma processContent_recs {R : List PyStr} {tL tJ : ℚ} {idx cIdx : Nat}
    {content c1 : Json} {recs : List TagRec}
    (h : processContent R tL tJ idx cIdx content = .ok (c1, recs)) :
    ∀ t ∈ recs, t.replaced ∈ R ∧ t.replaced ≠ t.original
      ∧ 0 < t.similarity ∧ t.similarity ≤ 1
      ∧ (t.field = shopnameKey ∨ t.field = barKey) ∧ t.path ≠ [] := by
  intro t ht
  cases content with
  | obj ckvs =>
    unfold processContent at h
    dsimp only at h
    rcases hF : objGet ckvs ("fields".toList) with _ | fv
    · rw [hF] at h
      injection h with h3
      injection h3 with h4 h5
      rw [← h5] at ht
      simp at ht
    · rw [hF] at h
      dsimp only at h
      rcases h1 : processOneField R tL tJ shopnameKey fv with e | pr1
      · rw [h1] at h
        exact Except.noConfusion h
      · rcases pr1 with ⟨fv1, r1⟩
        rw [h1, ebind_ok] at h
        dsimp only at h
        rcases h2 : processOneField R tL tJ barKey fv1 with e | pr2
        · rw [h2] at h
          exact Except.noConfusion h
        · rcases pr2 with ⟨fv2, r2⟩
          rw [h2, ebind_ok] at h
          dsimp only at h
          injection h with h3
          injection h3 with h4 h5
          rw [← h5] at ht
          rcases List.mem_append.mp ht with hm | hm
          · rcases List.mem_map.mp hm with ⟨r, hr, rfl⟩
            obtain ⟨p1, p2, p3, p4⟩ := processOneField_recs h1 r hr
            exact ⟨p1, p2, p3, p4, Or.inl rfl, fieldPath_ne_nil idx cIdx shopnameKey⟩
          · rcases List.mem_map.mp hm with ⟨r, hr, rfl⟩
            obtain ⟨p1, p2, p3, p4⟩ := processOneField_recs h2 r hr
            exact ⟨p1, p2, p3, p4, Or.inr rfl, fieldPath_ne_nil idx cIdx barKey⟩
  | null =>
    injection h with h3
    injection h3 with h4 h5
    rw [← h5] at ht
    simp at ht
  | bool b =>
    injection h with h3
    injection h3 with h4 h5
    rw [← h5] at ht
    simp at ht
  | num q =>
    injection h with h3
    injection h3 with h4 h5
    rw [← h5] at ht
    simp at ht
  | str s =>
    injection h with h3
    injection h3 with h4 h5
    rw [← h5] at ht
    simp at ht
  | arr xs =>
    injection h with h3
    injection h3 with h4 h5
    rw [← h5] at ht
    simp at ht

lemma processContents_recs {R : List PyStr} {tL tJ : ℚ} {idx : Nat} :
    ∀ (cs : List Json) (cIdx : Nat) {cs1 : List Json} {recs : List TagRec},
    processContents R tL tJ idx cIdx cs = .ok (cs1, recs) →
    ∀ t ∈ recs, t.replaced ∈ R ∧ t.replaced ≠ t.original
      ∧ 0 < t.similarity ∧ t.similarity ≤ 1
      ∧ (t.field = shopnameKey ∨ t.field = barKey) ∧ t.path ≠ [] := by
  intro cs
  induction cs with
  | nil =>
    intro cIdx cs1 recs h t ht
    unfold processContents at h
    injection h with h3
    injection h3 with h4 h5
    rw [← h5] at ht
    simp at ht
  | cons c rest ih =>
    intro cIdx cs1 recs h t ht
    unfold processContents at h
    rcases hc : processContent R tL tJ idx cIdx c with e | pr
    · rw [hc] at h
      exact Except.noConfusion h
    · rcases pr with ⟨c1, r1⟩
      rw [hc, ebind_ok] at h
      dsimp only at h
      rcases hrest : processContents R tL tJ idx (cIdx + 1) rest with e | pr2
      · rw [hrest] at h
        exact Except.noConfusion h
      · rcases pr2 with ⟨rest1, r2⟩
        rw [hrest, ebind_ok] at h
        dsimp only at h
        injection h with h3
        injection h3 with h4 h5
        rw [← h5] at ht
        rcases List.mem_append.mp ht with hm | hm
        · exact processContent_recs hc t hm
        · exact ih (cIdx + 1) hrest t hm

lemma processItem_recs {R : List PyStr} {tL tJ : ℚ} {idx : Nat}
    {item it1 : Json} {recs : List TagRec}
    (h : processItem R tL tJ idx item = .ok (it1, recs)) :
    ∀ t ∈ recs, t.replaced ∈ R ∧ t.replaced ≠ t.original
      ∧ 0 < t.similarity ∧ t.similarity ≤ 1
      ∧ (t.field = shopnameKey ∨ t.field = barKey) ∧ t.path ≠ [] := by
  intro t ht
  cases item with
  | obj kvs =>
    unfold processItem at h
    dsimp only at h
    rcases hg : objGet kvs ("result".toList) with _ | rv
    · rw [hg] at h
      injection h with h3
      injection h3 with h4 h5
      rw [← h5] at ht
      simp at ht
    · rw [hg] at h
      cases rv with
      | obj rkvs =>
        dsimp only at h
        rcases hc : objGet rkvs ("contents".toList) with _ | cv
        · rw [hc] at h
          injection h with h3
          injection h3 with h4 h5
          rw [← h5] at ht
          simp at ht
        · rw [hc] at h
          cases cv with
          | arr cs =>
            dsimp only at h
            rcases hcs : processContents R tL tJ idx 0 cs with e | pr
            · rw [hcs] at h
              exact Except.noConfusion h
            · rcases pr with ⟨cs1, r1⟩
              rw [hcs, ebind_ok] at h
              dsimp only at h
              injection h with h3
              injection h3 with h4 h5
              rw [← h5] at ht
              exact processContents_recs cs 0 hcs t ht
          | null =>
            injection h with h3
            injection h3 with h4 h5
            rw [← h5] at ht
            simp at ht
          | bool b =>
            injection h with h3
            injection h3 with h4 h5
            rw [← h5] at ht
            simp at ht
          | num q =>
            injection h with h3
            injection h3 with h4 h5
            rw [← h5] at ht
            simp at ht
          | str s =>
            injection h with h3
            injection h3 with h4 h5
            rw [← h5] at ht
            simp at ht
          | obj okvs =>
            injection h with h3
            injection h3 with h4 h5
            rw [← h5] at ht
            simp at ht
      | null =>
        injection h with h3
        injection h3 with h4 h5
        rw [← h5] at ht
        simp at ht
      | bool b =>
        injection h with h3
        injection h3 with h4 h5
        rw [← h5] at ht
        simp at ht
      | num q =>
        injection h with h3
        injection h3 with h4 h5
        rw [← h5] at ht
        simp at ht
      | str s =>
        injection h with h3
        injection h3 with h4 h5
        rw [← h5] at ht
        simp at ht
      | arr xs =>
        injection h with h3
        injection h3 with h4 h5
        rw [← h5] at ht
        simp at ht
  | null =>
    injection h with h3
    injection h3 with h4 h5
    rw [← h5] at ht
    simp at ht
  | bool b =>
    injection h with h3
    injection h3 with h4 h5
    rw [← h5] at ht
    simp at ht
  | num q =>
    injection h with h3
    injection h3 with h4 h5
    rw [← h5] at ht
    simp at ht
  | str s =>
    injection h with h3
    injection h3 with h4 h5
    rw [← h5] at ht
    simp at ht
  | arr xs =>
    injection h with h3
    injection h3 with h4 h5
    rw [← h5] at ht
    simp at ht

lemma processItems_recs {R : List PyStr} {tL tJ : ℚ} :
    ∀ (its : List Json) (idx : Nat) {its1 : List Json} {recs : List TagRec},
    processItems R tL tJ idx its = .ok (its1, recs) →
    ∀ t ∈ recs, t.replaced ∈ R ∧ t.replaced ≠ t.original
      ∧ 0 < t.similarity ∧ t.similarity ≤ 1
      ∧ (t.field = shopnameKey ∨ t.field = barKey) ∧ t.path ≠ [] := by
  intro its
  induction its with
  | nil =>
    intro idx its1 recs h t ht
    unfold processItems at h
    injection h with h3
    injection h3 with h4 h5
    rw [← h5] at ht
    simp at ht
  | cons it rest ih =>
    intro idx its1 recs h t ht
    unfold processItems at h
    rcases hc : processItem R tL tJ idx it with e | pr
    · rw [hc] at h
      exact Except.noConfusion h
    · rcases pr with ⟨it1, r1⟩
      rw [hc, ebind_ok] at h
      dsimp only at h
      rcases hrest : processItems R tL tJ (idx + 1) rest with e | pr2
      · rw [hrest] at h
        exact Except.noConfusion h
      · rcases pr2 with ⟨rest1, r2⟩
        rw [hrest, ebind_ok] at h
        dsimp only at h
        injection h with h3
        injection h3 with h4 h5
        rw [← h5] at ht
        rcases List.mem_append.mp ht with hm | hm
        · exact processItem_recs hc t hm
        · exact ih (idx + 1) hrest t hm

lemma process_json_data_recs {R : List PyStr} {tL tJ : ℚ} {doc d1 : Json}
    {recs : List TagRec} (h : process_json_data R tL tJ doc = .ok (d1, recs)) :
    ∀ t ∈ recs, t.replaced ∈ R ∧ t.replaced ≠ t.original
      ∧ 0 < t.similarity ∧ t.similarity ≤ 1
      ∧ (t.field = shopnameKey ∨ t.field = barKey) ∧ t.path ≠ [] := by
  intro t ht
  cases doc with
  | arr items =>
    unfold process_json_data at h
    dsimp only at h
    rcases hi : processItems R tL tJ 0 items with e | pr
    · rw [hi] at h
      exact Except.noConfusion h
    · rcases pr with ⟨items1, r1⟩
      rw [hi, ebind_ok] at h
      dsimp only at h
      injection h with h3
      injection h3 with h4 h5
      rw [← h5] at ht
      exact processItems_recs items 0 hi t ht
  | null =>
    injection h with h3
    injection h3 with h4 h5
    rw [← h5] at ht
    simp at ht
  | bool b =>
    injection h with h3
    injection h3 with h4 h5
    rw [← h5] at ht
    simp at ht
  | num q =>
    injection h with h3
    injection h3 with h4 h5
    rw [← h5] at ht
    simp at ht
  | str s =>
    injection h with h3
    injection h3 with h4 h5
    rw [← h5] at ht
    simp at ht
  | obj kvs =>
    injection h with h3
    injection h3 with h4 h5
    rw [← h5] at ht
    simp at ht

/-! ## Registry construction invariants -/

lemma load_entries_trimmed : ∀ rows : List (List PyStr),
    ∀ c ∈ _load_standard_names rows, strip c = c ∧ c ≠ [] := by
  intro rows
  induction rows with
  | nil =>
    intro c hc
    simp [_load_standard_names] at hc
  | cons row rest ih =>
    intro c hc
    unfold _load_standard_names at hc
    cases row with
    | nil => exact ih c hc
    | cons c0 cells =>
      dsimp only at hc
      by_cases hs : strip c0 = []
      · rw [if_pos hs] at hc
        exact ih c hc
      · rw [if_neg hs] at hc
        rcases List.mem_cons.mp hc with h | h
        · subst h
          exact ⟨strip_strip c0, hs⟩
        · exact ih c h

/-! ## Forward evaluation of the rule chain -/

lemma fbm_empty {R : List PyStr} {tL tJ : ℚ} {s : PyStr} (h : strip s = []) :
    find_best_match R tL tJ s = none := by
  unfold find_best_match earlyRules
  rw [if_pos h]

lemma fbm_mem {R : List PyStr} {tL tJ : ℚ} {s : PyStr} (h : strip s ∈ R) :
    find_best_match R tL tJ s = none := by
  by_cases h0 : strip s = []
  · exact fbm_empty h0
  · unfold find_best_match earlyRules
    rw [if_neg h0]
    dsimp only
    rw [if_pos h]

lemma fbm_shein {R : List PyStr} {tL tJ : ℚ} {s : PyStr} (h2 : strip s ∉ R)
    (h3 : lower (strip s) = "shein".toList) : find_best_match R tL tJ s = none := by
  by_cases h0 : strip s = []
  · exact fbm_empty h0
  · unfold find_best_match earlyRules
    rw [if_neg h0]
    dsimp only
    rw [if_neg h2, if_pos h3]

lemma fbm_ci {R : List PyStr} {tL tJ : ℚ} {s m : PyStr} (h1 : strip s ≠ [])
    (h2 : strip s ∉ R) (h3 : lower (strip s) ≠ "shein".toList)
    (h4 : R.find? (fun std => lower std == lower (strip s)) = some m) :
    find_best_match R tL tJ s = some (m, 1, "Case-insensitive exact match".toList) := by
  unfold find_best_match earlyRules
  rw [if_neg h1]
  dsimp only
  rw [if_neg h2, if_neg h3]
  rw [h4]

lemma fbm_glow {R : List PyStr} {tL tJ : ℚ} {s m : PyStr} (h1 : strip s ≠ [])
    (h2 : strip s ∉ R) (h3 : lower (strip s) ≠ "shein".toList)
    (h4 : R.find? (fun std => lower std == lower (strip s)) = none)
    (h5 : (if lower (strip s) = "shein glowmode".toList
           then R.find? (fun std => lower std == "glowmode".toList) else none) = some m) :
    find_best_match R tL tJ s
      = some (m, 1, "Special case: SHEIN GLOWMODE -> glowmode".toList) := by
  unfold find_best_match earlyRules
  rw [if_neg h1]
  dsimp only
  rw [if_neg h2, if_neg h3]
  rw [h4]
  rw [h5]

lemma fbm_leisure {R : List PyStr} {tL tJ : ℚ} {s m : PyStr} (h1 : strip s ≠ [])
    (h2 : strip s ∉ R) (h3 : lower (strip s) ≠ "shein".toList)
    (h4 : R.find? (fun std => lower std == lower (strip s)) = none)
    (h5 : (if lower (strip s) = "shein glowmode".toList
           then R.find? (fun std => lower std == "glowmode".toList) else none) = none)
    (h6 : (if lower (strip s) = "leisure".toList
           then R.find? (fun std => lower std == "shein leisure".toList) else none) = some m) :
    find_best_match R tL tJ s
      = some (m, 1, "Special case: Leisure -> SHEIN Leisure".toList) := by
  unfold find_best_match earlyRules
  rw [if_neg h1]
  dsimp only
  rw [if_neg h2, if_neg h3]
  rw [h4]
  rw [h5]
  rw [h6]

lemma fbm_removed {R : List PyStr} {tL tJ : ℚ} {s m : PyStr} (h1 : strip s ≠ [])
    (h2 : strip s ∉ R) (h3 : lower (strip s) ≠ "shein".toList)
    (h4 : R.find? (fun std => lower std == lower (strip s)) = none)
    (h5 : (if lower (strip s) = "shein glowmode".toList
           then R.find? (fun std => lower std == "glowmode".toList) else none) = none)
    (h6 : (if lower (strip s) = "leisure".toList
           then R.find? (fun std => lower std == "shein leisure".toList) else none) = none)
    (h7 : (if brandTok.isPrefixOf (lower (strip s))
           then R.find? (fun std => lower std == lower (strip ((strip s).drop 6)))
           else none) = some m) :
    find_best_match R tL tJ s
      = some (m, 1, "SHEIN-prefix removed exact match".toList) := by
  unfold find_best_match earlyRules
  rw [if_neg h1]
  dsimp only
  rw [if_neg h2, if_neg h3]
  rw [h4]
  rw [h5]
  rw [h6]
  rw [h7]

lemma fbm_added {R : List PyStr} {tL tJ : ℚ} {s m : PyStr} (h1 : strip s ≠ [])
    (h2 : strip s ∉ R) (h3 : lower (strip s) ≠ "shein".toList)
    (h4 : R.find? (fun std => lower std == lower (strip s)) = none)
    (h5 : (if lower (strip s) = "shein glowmode".toList
           then R.find? (fun std => lower std == "glowmode".toList) else none) = none)
    (h6 : (if lower (strip s) = "leisure".toList
           then R.find? (fun std => lower std == "shein leisure".toList) else none) = none)
    (h7 : (if brandTok.isPrefixOf (lower (strip s))
           then R.find? (fun std => lower std == lower (strip ((strip s).drop 6)))
           else none) = none)
    (h8 : R.find? (fun std =>
           brandTok.isPrefixOf (lower std) && (strip ((lower std).drop 6) == lower (strip s)))
          = some m) :
    find_best_match R tL tJ s
      = some (m, 1, "SHEIN-prefix added exact match".toList) := by
  unfold find_best_match earlyRules
  rw [if_neg h1]
  dsimp only
  rw [if_neg h2, if_neg h3]
  rw [h4]
  rw [h5]
  rw [h6]
  rw [h7]
  rw [h8]

lemma fbm_fall {R : List PyStr} {tL tJ : ℚ} {s : PyStr} (h1 : strip s ≠ [])
    (h2 : strip s ∉ R) (h3 : lower (strip s) ≠ "shein".toList)
    (h4 : R.find? (fun std => lower std == lower (strip s)) = none)
    (h5 : (if lower (strip s) = "shein glowmode".toList
           then R.find? (fun std => lower std == "glowmode".toList) else none) = none)
    (h6 : (if lower (strip s) = "leisure".toList
           then R.find? (fun std => lower std == "shein leisure".toList) else none) = none)
    (h7 : (if brandTok.isPrefixOf (lower (strip s))
           then R.find? (fun std => lower std == lower (strip ((strip s).drop 6)))
           else none) = none)
    (h8 : R.find? (fun std =>
           brandTok.isPrefixOf (lower std) && (strip ((lower std).drop 6) == lower (strip s)))
          = none) :
    find_best_match R tL tJ s = genericScan R tL tJ (strip s) := by
  unfold find_best_match earlyRules
  rw [if_neg h1]
  dsimp only
  rw [if_neg h2, if_neg h3]
  rw [h4]
  rw [h5]
  rw [h6]
  rw [h7]
  rw [h8]

lemma fbm_shein_any {R : List PyStr} {tL tJ : ℚ} {u : PyStr}
    (hu : lower u = "shein".toList) : find_best_match R tL tJ u = none := by
  have hall : ∀ c ∈ u, c.isWhitespace = false := by
    intro c hcu
    have hmem : c.toLower ∈ "shein".toList := by
      rw [← hu]
      exact List.mem_map_of_mem Char.toLower hcu
    have hws : ∀ w ∈ "shein".toList, w.isWhitespace = false := by decide
    exact not_ws_of_toLower (hws _ hmem) rfl
  have htrim : strip u = u := strip_eq_self_of_edges
    (fun c hc => hall c (List.mem_of_mem_head? hc))
    (fun c hc => hall c (List.mem_of_mem_getLast? hc))
  by_cases hmem : u ∈ R
  · exact fbm_mem (show strip u ∈ R by rw [htrim]; exact hmem)
  · exact fbm_shein (show strip u ∉ R by rw [htrim]; exact hmem) (by rw [htrim]; exact hu)

/-! ## The claims -/

/-- C1: `find_best_match` evaluates its rules in a fixed priority order in
which the first applicable rule wins: (1) empty/whitespace-only input gives
NoMatch; (2) exact membership of the trimmed input gives NoMatch; (3) a
case-folded bare brand token gives NoMatch; (4) case-insensitive exact
membership returns the first such registry member with score 1; (5) the two
alias rules; (6) the brand-prefix removed/added exact rules; (7) otherwise
the generic similarity scan runs.  Moreover every registry string built by
the loader decides to NoMatch, and every casing of the bare brand token
decides to NoMatch. -/
theorem C1_rule_priority (R : List PyStr) (tL tJ : ℚ) (s : PyStr) :
    (strip s = [] → find_best_match R tL tJ s = none)
    ∧ (strip s ∈ R → find_best_match R tL tJ s = none)
    ∧ (strip s ∉ R → lower (strip s) = "shein".toList →
        find_best_match R tL tJ s = none)
    ∧ (∀ m, strip s ≠ [] → strip s ∉ R → lower (strip s) ≠ "shein".toList →
        R.find? (fun std => lower std == lower (strip s)) = some m →
        find_best_match R tL tJ s = some (m, 1, "Case-insensitive exact match".toList))
    ∧ (∀ m, strip s ≠ [] → strip s ∉ R → lower (strip s) ≠ "shein".toList →
        R.find? (fun std => lower std == lower (strip s)) = none →
        (if lower (strip s) = "shein glowmode".toList
         then R.find? (fun std => lower std == "glowmode".toList) else none) = some m →
        find_best_match R tL tJ s
          = some (m, 1, "Special case: SHEIN GLOWMODE -> glowmode".toList))
    ∧ (∀ m, strip s ≠ [] → strip s ∉ R → lower (strip s) ≠ "shein".toList →
        R.find? (fun std => lower std == lower (strip s)) = none →
        (if lower (strip s) = "shein glowmode".toList
         then R.find? (fun std => lower std == "glowmode".toList) else none) = none →
        (if lower (strip s) = "leisure".toList
         then R.find? (fun std => lower std == "shein leisure".toList) else none) = some m →
        find_best_match R tL tJ s
          = some (m, 1, "Special case: Leisure -> SHEIN Leisure".toList))
    ∧ (∀ m, strip s ≠ [] → strip s ∉ R → lower (strip s) ≠ "shein".toList →
        R.find? (fun std => lower std == lower (strip s)) = none →
        (if lower (strip s) = "shein glowmode".toList
         then R.find? (fun std => lower std == "glowmode".toList) else none) = none →
        (if lower (strip s) = "leisure".toList
         then R.find? (fun std => lower std == "shein leisure".toList) else none) = none →
        (if brandTok.isPrefixOf (lower (strip s))
         then R.find? (fun std => lower std == lower (strip ((strip s).drop 6)))
         else none) = some m →
        find_best_match R tL tJ s = some (m, 1, "SHEIN-prefix removed exact match".toList))
    ∧ (∀ m, strip s ≠ [] → strip s ∉ R → lower (strip s) ≠ "shein".toList →
        R.find? (fun std => lower std == lower (strip s)) = none →
        (if lower (strip s) = "shein glowmode".toList
         then R.find? (fun std => lower std == "glowmode".toList) else none) = none →
        (if lower (strip s) = "leisure".toList
         then R.find? (fun std => lower std == "shein leisure".toList) else none) = none →
        (if brandTok.isPrefixOf (lower (strip s))
         then R.find? (fun std => lower std == lower (strip ((strip s).drop 6)))
         else none) = none →
        R.find? (fun std =>
          brandTok.isPrefixOf (lower std) && (strip ((lower std).drop 6) == lower (strip s)))
          = some m →
        find_best_match R tL tJ s = some (m, 1, "SHEIN-prefix added exact match".toList))
    ∧ (strip s ≠ [] → strip s ∉ R → lower (strip s) ≠ "shein".toList →
        R.find? (fun std => lower std == lower (strip s)) = none →
        (if lower (strip s) = "shein glowmode".toList
         then R.find? (fun std => lower std == "glowmode".toList) else none) = none →
        (if lower (strip s) = "leisure".toList
         then R.find? (fun std => lower std == "shein leisure".toList) else none) = none →
        (if brandTok.isPrefixOf (lower (strip s))
         then R.find? (fun std => lower std == lower (strip ((strip s).drop 6)))
         else none) = none →
        R.find? (fun std =>
          brandTok.isPrefixOf (lower std) && (strip ((lower std).drop 6) == lower (strip s)))
          = none →
        find_best_match R tL tJ s = genericScan R tL tJ (strip s))
    ∧ (∀ rows : List (List PyStr), ∀ c ∈ _load_standard_names rows,
        find_best_match (_load_standard_names rows) tL tJ c = none)
    ∧ (∀ u : PyStr, lower u = "shein".toList → find_best_match R tL tJ u = none) :=
  ⟨fun h => fbm_empty h,
   fun h => fbm_mem h,
   fun h2 h3 => fbm_shein h2 h3,
   fun _ h1 h2 h3 h4 => fbm_ci h1 h2 h3 h4,
   fun _ h1 h2 h3 h4 h5 => fbm_glow h1 h2 h3 h4 h5,
   fun _ h1 h2 h3 h4 h5 h6 => fbm_leisure h1 h2 h3 h4 h5 h6,
   fun _ h1 h2 h3 h4 h5 h6 h7 => fbm_removed h1 h2 h3 h4 h5 h6 h7,
   fun _ h1 h2 h3 h4 h5 h6 h7 h8 => fbm_added h1 h2 h3 h4 h5 h6 h7 h8,
   fun h1 h2 h3 h4 h5 h6 h7 h8 => fbm_fall h1 h2 h3 h4 h5 h6 h7 h8,
   fun rows c hc => find_best_match_none_of_mem (load_entries_trimmed rows c hc).1 hc,
   fun _ hu => fbm_shein_any hu⟩

/-- C2: in generic scoring the per-entry effective score of each metric is
the maximum over the applicable weighted prefix variants (each capped at 1)
together with the baseline comparison (the larger of the case-sensitive and
case-insensitive scores), and every effective score lies in [0, 1]. -/
theorem C2_effective_scores (tocr std : PyStr) :
    curLev tocr std = listMax (variants levN tocr std)
    ∧ curJw tocr std = listMax (variants jaroW tocr std)
    ∧ 0 ≤ curLev tocr std ∧ curLev tocr std ≤ 1
    ∧ 0 ≤ curJw tocr std ∧ curJw tocr std ≤ 1 :=
  ⟨curLev_eq_variants tocr std, curJw_eq_variants tocr std,
   (curLev_bounds tocr std).1, (curLev_bounds tocr std).2,
   (curJw_bounds tocr std).1, (curJw_bounds tocr std).2⟩

/-- C3: (amended) the generic scan returns the first qualifying candidate,
in scan order (registry order, Levenshtein before Jaro-Winkler within an
entry), whose score is strictly positive and attains the maximum over all
qualifying candidates; equivalently it returns NoMatch exactly when every
qualifying candidate has score ≤ 0.  In particular a candidate that merely
meets its threshold with score 0 can never win, and the decision is a
deterministic function of (registry, thresholds, input). -/
theorem C3_scan_selection (R : List PyStr) (tL tJ : ℚ) (tocr : PyStr) :
    genericScan R tL tJ tocr
      = (candList R tL tJ tocr).find?
          (fun c => decide ((0:ℚ) < c.2.1)
            && decide (maxSc (candList R tL tJ tocr) ≤ c.2.1))
    ∧ (genericScan R tL tJ tocr = none ↔ ∀ c ∈ candList R tL tJ tocr, c.2.1 ≤ 0) :=
  ⟨genericScan_char R tL tJ tocr, genericScan_none_iff R tL tJ tocr⟩

/-- C4: (amended) the field handler skips silently, with zero records, a
target field that is absent, whose value is not a dict, whose dict lacks
`valueString`, or whose `valueString` is falsy; but a truthy non-string
`valueString` raises (the duck-typed `.strip()` attribute error), so the
transformer is not raise-free for all data shapes. -/
theorem C4_shape_handling (R : List PyStr) (tL tJ : ℚ) (fname : PyStr)
    (fkvs : List (PyStr × Json)) :
    (objGet fkvs fname = none →
      processOneField R tL tJ fname (.obj fkvs) = .ok (.obj fkvs, []))
    ∧ (∀ w, objGet fkvs fname = some w → (∀ inner, w ≠ .obj inner) →
      processOneField R tL tJ fname (.obj fkvs) = .ok (.obj fkvs, []))
    ∧ (∀ inner, objGet fkvs fname = some (.obj inner) → objGet inner vsKey = none →
      processOneField R tL tJ fname (.obj fkvs) = .ok (.obj fkvs, []))
    ∧ (∀ inner v, objGet fkvs fname = some (.obj inner) → objGet inner vsKey = some v →
      truthy v = false →
      processOneField R tL tJ fname (.obj fkvs) = .ok (.obj fkvs, []))
    ∧ (∀ inner v, objGet fkvs fname = some (.obj inner) → objGet inner vsKey = some v →
      truthy v = true → (∀ s, v ≠ .str s) →
      processOneField R tL tJ fname (.obj fkvs) = .error ()) := by
  refine ⟨?_, ?_, ?_, ?_, ?_⟩
  · intro hg
    unfold processOneField
    dsimp only
    rw [hg]
  · intro w hg hw
    unfold processOneField
    dsimp only
    rw [hg]
    cases w with
    | obj inner => exact absurd rfl (hw inner)
    | null => rfl
    | bool b => rfl
    | num q => rfl
    | str s => rfl
    | arr xs => rfl
  · intro inner hg hvs
    unfold processOneField
    dsimp only
    rw [hg]
    dsimp only
    rw [hvs]
  · intro inner v hg hvs hfal
    unfold processOneField
    dsimp only
    rw [hg]
    dsimp only
    rw [hvs]
    dsimp only
    rw [pyProcessValue_falsy hfal, ebind_ok]
    dsimp only
    rw [objSet_id hvs, objSet_id hg]
  · intro inner v hg hvs ht hnstr
    unfold processOneField
    dsimp only
    rw [hg]
    dsimp only
    rw [hvs]
    dsimp only
    rw [pyProcessValue_truthy_nonstr ht hnstr]
    rfl

/-- C5: (amended) every entry of the constructed registry is trimmed and
non-empty; the loader does not deduplicate. -/
theorem C5_registry_entries (rows : List (List PyStr)) (c : PyStr)
    (hc : c ∈ _load_standard_names rows) :
    strip c = c ∧ c ≠ [] :=
  load_entries_trimmed rows c hc

/-- C6: raising either threshold never turns a NoMatch outcome into a
Matched outcome. -/
theorem C6_threshold_monotone (R : List PyStr) (tL tJ tL' tJ' : ℚ) (s : PyStr)
    (hL : tL ≤ tL') (hJ : tJ ≤ tJ')
    (h : find_best_match R tL tJ s = none) :
    find_best_match R tL' tJ' s = none :=
  find_best_match_mono hL hJ h

/-- C7: (amended) when every registry entry is trimmed, non-empty and
comma-free, a second application of `process_json_data` to the output of a
first application produces zero additional replacement records and leaves
the document unchanged. -/
theorem C7_second_pass (R : List PyStr) (tL tJ : ℚ) (doc d1 : Json)
    (recs : List TagRec) (hR : ∀ c ∈ R, strip c = c ∧ c ≠ [] ∧ ',' ∉ c)
    (h : process_json_data R tL tJ doc = .ok (d1, recs)) :
    process_json_data R tL tJ d1 = .ok (d1, []) :=
  process_json_data_stable R tL tJ hR h

/-- C8: (amended) for every input that is non-empty after trimming, the
token processor equals the split/trim/drop/decide/rejoin pipeline: it
returns the ", "-join of the per-token decisions over the non-empty trimmed
tokens, with one replacement record per matched token in token order, and
the number of output segments equals the number of non-empty tokens. -/
theorem C8_token_pipeline (R : List PyStr) (tL tJ : ℚ) (s : PyStr)
    (hs : strip s ≠ []) :
    process_comma_separated_shop_names R tL tJ s
      = (joinComma (specOuts R tL tJ s), specRecs R tL tJ s)
    ∧ (specOuts R tL tJ s).length = (specTokens s).length := by
  constructor
  · have hne : ¬(s = [] ∨ strip s = []) := by
      rintro (h | h)
      · exact hs (by rw [h]; rfl)
      · exact hs h
    unfold process_comma_separated_shop_names
    rw [if_neg hne]
    dsimp only
    rw [procNames_eq]
    unfold specOuts specRecs specTokens
    have hfun : ∀ t ∈ (((splitComma s).map strip).filter (fun t => t ≠ [])),
        (match find_best_match R tL tJ t with
          | some r => r.1
          | none => t)
        = (match find_best_match R tL tJ t with
          | some (m, _, _) => m
          | none => t) := by
      intro t _
      rcases find_best_match R tL tJ t with _ | ⟨m, sc, al⟩ <;> rfl
    rw [List.map_congr_left hfun]
  · unfold specOuts
    exact List.length_map _ _

/-- C9: `process_json_data` is a pure function of its document argument (the
model has no mutable state, so the caller's value is unchanged by
construction), and its output agrees with its input everywhere outside the
two recognized `valueString` slots: erasing those slots in input and output
yields identical documents. -/
theorem C9_no_outside_writes (R : List PyStr) (tL tJ : ℚ) (doc d1 : Json)
    (recs : List TagRec) (h : process_json_data R tL tJ doc = .ok (d1, recs)) :
    eraseDoc d1 = eraseDoc doc :=
  eraseDoc_proc h

/-- C10: every replacement record produced by `process_json_data` carries a
`replaced` value that is an exact registry member and differs from the
original token, a similarity in (0, 1], a `field` tag that is exactly
`shopname` or `shopname_in_search_bar`, and a non-empty `path`. -/
theorem C10_record_invariants (R : List PyStr) (tL tJ : ℚ) (doc d1 : Json)
    (recs : List TagRec) (h : process_json_data R tL tJ doc = .ok (d1, recs)) :
    ∀ t ∈ recs, t.replaced ∈ R ∧ t.replaced ≠ t.original
      ∧ 0 < t.similarity ∧ t.similarity ≤ 1
      ∧ (t.field = shopnameKey ∨ t.field = barKey) ∧ t.path ≠ [] :=
  process_json_data_recs h

/-! ## Witnesses and counterexamples -/

set_option maxRecDepth 1000000

/-- Witness for C1: the GLOWMODE alias rule fires on a concrete registry. -/
theorem C1_rule_priority_witness :
    strip "SHEIN GLOWMODE".toList ≠ []
    ∧ strip "SHEIN GLOWMODE".toList ∉ regGlow
    ∧ lower (strip "SHEIN GLOWMODE".toList) ≠ "shein".toList
    ∧ regGlow.find? (fun std => lower std == lower (strip "SHEIN GLOWMODE".toList)) = none
    ∧ (if lower (strip "SHEIN GLOWMODE".toList) = "shein glowmode".toList
       then regGlow.find? (fun std => lower std == "glowmode".toList) else none)
      = some "glowmode".toList
    ∧ find_best_match regGlow 0 0 "SHEIN GLOWMODE".toList
        = some ("glowmode".toList, 1, "Special case: SHEIN GLOWMODE -> glowmode".toList) :=
  ⟨by decide, by decide, by decide, by decide, by decide,
   (C1_rule_priority regGlow 0 0 "SHEIN GLOWMODE".toList).2.2.2.2.1 "glowmode".toList
     (by decide) (by decide) (by decide) (by decide) (by decide)⟩

/-- Counterexample for C3: with both thresholds 0 and input "a" against
registry ["b"], both metric candidates qualify (score 0 meets threshold 0),
yet the scan returns NoMatch: a qualifying candidate of maximal score does
not win when that score is not strictly positive. -/
theorem C3_counterexample :
    candList ["b".toList] 0 0 "a".toList
      = [("b".toList, 0, "Levenshtein".toList), ("b".toList, 0, "Jaro-Winkler".toList)]
    ∧ genericScan ["b".toList] 0 0 "a".toList = none := by
  with_unfolding_all decide

/-- Witness for C4: concrete skip (falsy `valueString`), concrete absent
field, and concrete raise (numeric `valueString`). -/
theorem C4_shape_handling_witness :
    processOneField regGlow 0 0 shopnameKey (.obj []) = .ok (.obj [], [])
    ∧ processOneField regGlow 0 0 shopnameKey
        (.obj [("shopname".toList, .obj [("valueString".toList, .null)])])
      = .ok (.obj [("shopname".toList, .obj [("valueString".toList, .null)])], [])
    ∧ processOneField regGlow 0 0 shopnameKey
        (.obj [("shopname".toList, .obj [("valueString".toList, .num 5)])])
      = .error () :=
  ⟨(C4_shape_handling regGlow 0 0 shopnameKey []).1 rfl,
   (C4_shape_handling regGlow 0 0 shopnameKey
       [("shopname".toList, .obj [("valueString".toList, .null)])]).2.2.2.1
     [("valueString".toList, .null)] .null rfl rfl rfl,
   (C4_shape_handling regGlow 0 0 shopnameKey
       [("shopname".toList, .obj [("valueString".toList, .num 5)])]).2.2.2.2
     [("valueString".toList, .num 5)] (.num 5) rfl rfl
     (by with_unfolding_all decide) (fun s h => Json.noConfusion h)⟩

/-- Counterexample for C4: a document whose `shopname.valueString` is the
number 5 makes the whole transformer raise. -/
theorem C4_counterexample :
    process_json_data regGlow 0 0 (mkShopDoc (Json.num 5)) = .error () := by
  with_unfolding_all rfl

/-- Witness for C5: the loader output on a concrete one-row table. -/
theorem C5_registry_entries_witness :
    "a".toList ∈ _load_standard_names [["a".toList]]
    ∧ (strip "a".toList = "a".toList ∧ "a".toList ≠ []) :=
  ⟨by decide, C5_registry_entries [["a".toList]] "a".toList (by decide)⟩

/-- Counterexample for C5: two rows with the same first column produce a
duplicated registry entry — the loader does not deduplicate. -/
theorem C5_counterexample :
    _load_standard_names [["a".toList], ["a".toList]] = ["a".toList, "a".toList]
    ∧ ¬ List.Nodup (_load_standard_names [["a".toList], ["a".toList]]) := by
  with_unfolding_all decide

/-- Witness for C6: a NoMatch at thresholds (0, 0) stays NoMatch at (1, 1). -/
theorem C6_threshold_monotone_witness :
    ((0:ℚ) ≤ 1)
    ∧ find_best_match [] 0 0 "a".toList = none
    ∧ find_best_match [] 1 1 "a".toList = none :=
  ⟨by norm_num, by with_unfolding_all rfl,
   C6_threshold_monotone [] 0 0 1 1 "a".toList (by norm_num) (by norm_num)
     (by with_unfolding_all rfl)⟩

/-- Witness for C7: a concrete first pass rewrites `SHEIN GLOWMODE` to the
canonical `glowmode`, and the second pass is a no-op. -/
theorem C7_second_pass_witness :
    (∀ c ∈ regGlow, strip c = c ∧ c ≠ [] ∧ ',' ∉ c)
    ∧ process_json_data regGlow (4/5) (17/20) docGlow = .ok (docGlow1, [recGlow])
    ∧ process_json_data regGlow (4/5) (17/20) docGlow1 = .ok (docGlow1, []) :=
  ⟨by decide, by with_unfolding_all rfl,
   C7_second_pass regGlow (4/5) (17/20) docGlow docGlow1 [recGlow] (by decide)
     (by with_unfolding_all rfl)⟩

/-- Counterexample for C7: with the comma-carrying registry entry
`aaaa,bbbb`, the first pass writes that entry into the document and the
second pass re-splits it and rewrites again, producing a further record and
a changed document (`aaaa,bbbb, bbbb`). -/
theorem C7_counterexample :
    process_json_data regComma (4/5) (17/20) docComma = .ok (docComma1, [recComma1])
    ∧ process_json_data regComma (4/5) (17/20) docComma1 = .ok (docComma2, [recComma2])
    ∧ ([recComma2] : List TagRec) ≠ [] :=
  ⟨by with_unfolding_all rfl, by with_unfolding_all rfl, List.cons_ne_nil recComma2 []⟩

/-- Witness for C8: the pipeline equation at a concrete input. -/
theorem C8_token_pipeline_witness :
    strip "Leisure, glowmodee".toList ≠ []
    ∧ (process_comma_separated_shop_names regGlow (4/5) (17/20) "Leisure, glowmodee".toList
        = (joinComma (specOuts regGlow (4/5) (17/20) "Leisure, glowmodee".toList),
           specRecs regGlow (4/5) (17/20) "Leisure, glowmodee".toList)
       ∧ (specOuts regGlow (4/5) (17/20) "Leisure, glowmodee".toList).length
          = (specTokens "Leisure, glowmodee".toList).length) :=
  ⟨by decide, C8_token_pipeline regGlow (4/5) (17/20) "Leisure, glowmodee".toList (by decide)⟩

/-- Counterexample for C8: a whitespace-only input is returned verbatim by
the guard, not rebuilt by the split/rejoin pipeline, which would return the
empty string. -/
theorem C8_counterexample :
    (process_comma_separated_shop_names [] 0 0 [' ']).1 = [' ']
    ∧ joinComma (specOuts [] 0 0 [' ']) = []
    ∧ ([' '] : PyStr) ≠ [] := by
  with_unfolding_all decide

/-- Witness for C9: the concrete rewrite of `docGlow` erases to the same
frame as its input. -/
theorem C9_no_outside_writes_witness :
    process_json_data regGlow (4/5) (17/20) docGlow = .ok (docGlow1, [recGlow])
    ∧ eraseDoc docGlow1 = eraseDoc docGlow :=
  ⟨by with_unfolding_all rfl,
   C9_no_outside_writes regGlow (4/5) (17/20) docGlow docGlow1 [recGlow]
     (by with_unfolding_all rfl)⟩

/-- Witness for C10: the record produced for `docGlow` satisfies every
invariant. -/
theorem C10_record_invariants_witness :
    process_json_data regGlow (4/5) (17/20) docGlow = .ok (docGlow1, [recGlow])
    ∧ (recGlow.replaced ∈ regGlow ∧ recGlow.replaced ≠ recGlow.original
       ∧ 0 < recGlow.similarity ∧ recGlow.similarity ≤ 1
       ∧ (recGlow.field = shopnameKey ∨ recGlow.field = barKey) ∧ recGlow.path ≠ []) :=
  ⟨by with_unfolding_all rfl,
   C10_record_invariants regGlow (4/5) (17/20) docGlow docGlow1 [recGlow]
     (by with_unfolding_all rfl) recGlow (List.mem_cons_self recGlow [])⟩

end ShopFix
